import Mathlib

/-!
# parseform: the tag lexer of `main.go`

A shallow embedding of the lexer of `main.go` (token model, `emit`, the three
state functions `lexText`, `lexTag`, `lexAttributes`, and the `run` loop),
followed by theorems about it.

Modelling conventions.

* The buffered reader `bufio.Reader` is a list of runes still to be read, the
  error its source reports once they are exhausted (`io.EOF` or another error),
  and the rune that `UnreadRune` may push back.
* The channel `l.items` is the list of items sent on it so far, in order,
  together with a flag recording `close`.
* `unicode.IsLetter` belongs to the Go standard library; the state functions
  take it as the parameter `IsLetter`.
* Every `for` loop of the source is a recursive function on a step budget
  (`fuel`).  An `Outcome` is either `returned` (the Go function returned) or
  `running` (the budget ran out inside a loop); both carry the lexer as it is
  at that moment, so the tokens sent so far can always be observed.
-/

namespace parseform

/-! ## Token model -/

/-- The Go type `itemType`: the constants of the `iota` block, in source order. -/
inductive itemType
  | itemError
  | itemDot
  | itemEOF
  | itemElse
  | itemEnd
  | itemField
  | itemIdentifier
  | itemIf
  | itemLeftMeta
  | itemNumber
  | itemPipe
  | itemRange
  | itemRawString
  | itemRightMeta
  | itemString
  | itemText
  | itemStartTag
  | itemEndTag
  | itemCloseTag
  | itemTagName
  | itemAtributeName
  | itemAtributeValue
  | itemEq
  deriving DecidableEq, Repr

/-- The Go struct `item`. -/
structure item where
  typ : itemType
  val : String
  deriving DecidableEq, Repr

/-! ## The input stream -/

/-- The errors a read can report: `io.EOF`, or any other error. -/
inductive ioError
  | EOF
  | other
  deriving DecidableEq, Repr

/-- An `io.Reader`: the runes it delivers, then the error it reports. -/
structure ioReader where
  data : List Char
  err : ioError
  deriving Repr

/-- A reader over a string, as `strings.NewReader`: it ends with `io.EOF`. -/
def stringReader (s : String) : ioReader := ⟨s.data, ioError.EOF⟩

/-- The Go type `bufio.Reader`, as far as `ReadRune`, `UnreadRune` and `Peek`
observe it. -/
structure Reader where
  /-- runes not yet read -/
  buf : List Char
  /-- error reported once `buf` is exhausted -/
  err : ioError
  /-- the rune returned by the last operation, when that was a `ReadRune` -/
  last : Option Char
  deriving Repr

/-- The constructor `bufio.NewReader`. -/
def NewReader (input : ioReader) : Reader := ⟨input.data, input.err, none⟩

/-- The method `ReadRune`: the rune, its size in bytes, the error, and the reader
afterwards.  At the end of the buffer it returns rune 0 and size 0 with the
error. -/
def Reader.ReadRune (r : Reader) : Char × Nat × Option ioError × Reader :=
  match r.buf with
  | [] => (Char.ofNat 0, 0, some r.err, { r with last := none })
  | c :: cs => (c, c.utf8Size, none, { r with buf := cs, last := some c })

/-- The method `UnreadRune`: pushes back the rune of the last `ReadRune`; it
reports an error (`true`) when the last operation was not a successful
`ReadRune`. -/
def Reader.UnreadRune (r : Reader) : Reader × Bool :=
  match r.last with
  | some c => ({ r with buf := c :: r.buf, last := none }, false)
  | none => (r, true)

/-- The call `Peak(1)` of the source (`bufio.Reader.Peek`): the next rune without
consuming it, `none` at the end of the buffer.  Like `Peek`, it invalidates
`UnreadRune`. -/
def Reader.Peak (r : Reader) : Option Char × Reader :=
  (r.buf.head?, { r with last := none })

/-! ## The lexer -/

/-- The channel `chan item`: the items sent so far and whether it was closed. -/
structure chan where
  sent : List item
  closed : Bool
  deriving Repr

/-- The Go struct `lexer`. -/
structure lexer where
  stream : Reader
  name : String
  input : String
  items : chan
  deriving Repr

/-- The Go type `stateFn`: the three state functions (`nil` is `none` of
`Option stateFn`). -/
inductive stateFn
  | lexText
  | lexTag
  | lexAttributes
  deriving DecidableEq, Repr

/-- How a call ended within its step budget: it returned `a`, or it is still
inside a loop.  Both carry the lexer at that moment. -/
inductive Outcome (α : Type)
  | returned (a : α) (l : lexer)
  | running (l : lexer)
  deriving Repr

/-- The lexer carried by an outcome. -/
def Outcome.lexer {α : Type} : Outcome α → lexer
  | Outcome.returned _ l => l
  | Outcome.running l => l

/-- The tokens sent on the channel by the time of an outcome. -/
def Outcome.tokens {α : Type} (o : Outcome α) : List item := o.lexer.items.sent

/-- The method `emit`: send `item{t, l.input}`, then `l.input = ""`. -/
def lexer.emit (l : lexer) (t : itemType) : lexer :=
  { l with items := { l.items with sent := l.items.sent ++ [⟨t, l.input⟩] }, input := "" }

/-- The state function `lexText`. -/
def lexText : Nat → lexer → Outcome (Option stateFn)
  | 0, l => Outcome.running l
  | fuel + 1, l =>
    match l.stream.ReadRune with
    | (next, n, err, s) =>
      let l := { l with stream := s }
      if err = some ioError.EOF ∨ n = 0 then
        -- emit(itemText); break; emit(itemEOF); return nil
        let l := l.emit itemType.itemText
        let l := l.emit itemType.itemEOF
        Outcome.returned none l
      else if next = '<' then
        let l := l.emit itemType.itemText
        let l := { l with input := String.singleton next }
        Outcome.returned (some stateFn.lexTag) l
      else
        lexText fuel { l with input := l.input.push next }

/-- The `for` loop of `lexTag`.  Only the end-of-stream branch has a `break`;
after the loop the function returns `lexAttributes`. -/
def lexTag.loop (IsLetter : Char → Bool) : Nat → lexer → Outcome (Option stateFn)
  | 0, l => Outcome.running l
  | fuel + 1, l =>
    match l.stream.ReadRune with
    | (next, n, err, s) =>
      let l := { l with stream := s }
      if err = some ioError.EOF ∨ n = 0 then
        -- emit(itemEOF); break; return lexAttributes
        let l := l.emit itemType.itemEOF
        Outcome.returned (some stateFn.lexAttributes) l
      else if !IsLetter next then
        let l := { l with stream := l.stream.UnreadRune.1 }
        let l := l.emit itemType.itemTagName
        lexTag.loop IsLetter fuel l
      else
        lexTag.loop IsLetter fuel { l with input := l.input.push next }

/-- The state function `lexTag`. -/
def lexTag (IsLetter : Char → Bool) (fuel : Nat) (l : lexer) : Outcome (Option stateFn) :=
  let l := l.emit itemType.itemStartTag
  match l.stream.Peak with
  | (next, s) =>
    let l := { l with stream := s }
    let l := if next = some '/' then l.emit itemType.itemCloseTag else l
    lexTag.loop IsLetter fuel l

/-- The final `for` loop of `lexAttributes`.  Its body declares a fresh `next`
with `:=`, so the `next` of the loop condition and of the `append` is the rune
read before the loop. -/
def lexAttributes.loop (IsLetter : Char → Bool) (next : Char) :
    Nat → lexer → Outcome (Option stateFn)
  | 0, l => Outcome.running l
  | fuel + 1, l =>
    if IsLetter next then
      let l := { l with input := l.input.push next }
      match l.stream.ReadRune with
      | (_, _, _, s) => lexAttributes.loop IsLetter next fuel { l with stream := s }
    else
      -- emit(itemAttributeName); return lexAttributes
      Outcome.returned (some stateFn.lexAttributes) (l.emit itemType.itemAtributeName)

/-- The state function `lexAttributes`. -/
def lexAttributes (IsLetter : Char → Bool) (fuel : Nat) (l : lexer) :
    Outcome (Option stateFn) :=
  match l.stream.ReadRune with
  | (next, _, err, s) =>
    let l := { l with stream := s }
    if err = some ioError.EOF then
      Outcome.returned none (l.emit itemType.itemEOF)
    else if err ≠ none then
      Outcome.returned none l
    else if next = '>' then
      Outcome.returned (some stateFn.lexText) (l.emit itemType.itemEndTag)
    else if next = '/' then
      Outcome.returned (some stateFn.lexAttributes) (l.emit itemType.itemCloseTag)
    else if next = '=' then
      Outcome.returned (some stateFn.lexAttributes) (l.emit itemType.itemEq)
    else if !IsLetter next then
      Outcome.returned (some stateFn.lexAttributes) l
    else
      lexAttributes.loop IsLetter next fuel l

/-- Calling a state function: `state(l)`. -/
def callState (IsLetter : Char → Bool) : stateFn → Nat → lexer → Outcome (Option stateFn)
  | stateFn.lexText => lexText
  | stateFn.lexTag => lexTag IsLetter
  | stateFn.lexAttributes => lexAttributes IsLetter

/-- The loop of `run` from a given state: apply the state function until the
state is `nil`, then close the channel. -/
def run.loop (IsLetter : Char → Bool) : Nat → Option stateFn → lexer → Outcome Unit
  | 0, _, l => Outcome.running l
  | _ + 1, none, l => Outcome.returned () { l with items := { l.items with closed := true } }
  | fuel + 1, some state, l =>
    match callState IsLetter state fuel l with
    | Outcome.returned state' l' => run.loop IsLetter fuel state' l'
    | Outcome.running l' => Outcome.running l'

/-- The function `run`: the loop starts in `lexText`. -/
def run (IsLetter : Char → Bool) (fuel : Nat) (l : lexer) : Outcome Unit :=
  run.loop IsLetter fuel (some stateFn.lexText) l

/-- The lexer that `lex` builds: the named fields are set, `input` is the zero
value, the channel is fresh. -/
def newLexer (name : String) (input : ioReader) : lexer :=
  { name := name, stream := NewReader input, input := "", items := ⟨[], false⟩ }

/-- The function `lex`, with the goroutine `run` executed for `fuel` steps. -/
def lex (IsLetter : Char → Bool) (name : String) (input : ioReader) (fuel : Nat) :
    Outcome Unit :=
  run IsLetter fuel (newLexer name input)

/-- The letters of ASCII: `unicode.IsLetter` agrees with this predicate on every
ASCII character. -/
def asciiLetter (c : Char) : Bool := c.isAlpha

/-! ## Rendering a token -/

/-- The truncation that the precision of `%.10q` applies before quoting: the first
`n` runes of `s`. -/
def truncateString (s : String) (n : Nat) : String := ⟨s.data.take n⟩

/-- The method `String` of `item`.  The verb `%q` is `strconv.Quote` of the Go
standard library, taken as the parameter `Quote`; `len(i.val)` is the length of
the value in bytes. -/
def item.String (Quote : String → String) (i : item) : String :=
  match i.typ with
  | itemType.itemEOF => "EOF"
  | itemType.itemError => i.val
  | _ =>
    if i.val.utf8ByteSize > 10 then
      Quote (truncateString i.val 10) ++ "..."
    else
      Quote i.val

/-- What `strconv.Quote` returns on a string of printable characters other than
the double quote and the backslash: the string between double quotes. -/
def plainQuote (s : String) : String := "\"" ++ s ++ "\""

/-! ## Auxiliary definitions for the statements -/

/-- The lexer at the top of the loop of `lexTag`: the start-tag item has been
sent, and a close-tag item when the peeked rune is `/`. -/
def afterPeek (l : lexer) : lexer :=
  { stream := ⟨l.stream.buf, l.stream.err, none⟩, name := l.name, input := "",
    items := ⟨l.items.sent ++ ⟨itemType.itemStartTag, l.input⟩ ::
      (if l.stream.buf.head? = some '/' then [⟨itemType.itemCloseTag, ""⟩] else []),
      l.items.closed⟩ }

/-- The tokens sent up to the top of the loop of `lexTag`, for an input that
is `t`, `<` and then `r`. -/
def tagHead (t r : List Char) : List item :=
  ⟨itemType.itemText, String.mk t⟩ :: ⟨itemType.itemStartTag, "<"⟩ ::
    (if r.head? = some '/' then [⟨itemType.itemCloseTag, ""⟩] else [])

/-- No character of the value of `a` occurs in the value of `b`. -/
def disjointValues (a b : item) : Prop := ∀ c ∈ a.val.data, c ∉ b.val.data

/-- The kinds that some `emit` call of the source names. -/
def producedKinds : List itemType :=
  [itemType.itemText, itemType.itemEOF, itemType.itemStartTag, itemType.itemCloseTag,
    itemType.itemTagName, itemType.itemAtributeName, itemType.itemEndTag, itemType.itemEq,
    itemType.itemError]

/-- Every item sent so far has one of the produced kinds. -/
def kindsOK (l : lexer) : Prop := ∀ i ∈ l.items.sent, i.typ ∈ producedKinds

/-! ## Basic facts about the reader and `emit` -/

theorem ReadRune_nil (r : Reader) (h : r.buf = []) :
    r.ReadRune = (Char.ofNat 0, 0, some r.err, { r with last := none }) := by
  unfold Reader.ReadRune
  rw [h]

theorem ReadRune_cons (r : Reader) (c : Char) (cs : List Char) (h : r.buf = c :: cs) :
    r.ReadRune = (c, c.utf8Size, none, { r with buf := cs, last := some c }) := by
  unfold Reader.ReadRune
  rw [h]

theorem utf8Size_ne_zero (c : Char) : c.utf8Size ≠ 0 :=
  Nat.pos_iff_ne_zero.mp (Char.utf8Size_pos c)

theorem push_append_mk (s : String) (c : Char) (t : List Char) :
    s.push c ++ String.mk t = s ++ String.mk (c :: t) := by
  apply String.ext
  simp [String.data_append]

theorem append_mk_nil (s : String) : s ++ String.mk [] = s := by
  apply String.ext
  simp [String.data_append]

theorem empty_append_mk_data (s : String) : "" ++ String.mk s.data = s := by
  apply String.ext
  simp [String.data_append]

/-! ## `lexText` -/

/-- When the unread runes `t` hold no `<`, `lexText` returns `nil` having sent
the pending value followed by `t` as one text item, then the end marker. -/
theorem lexText_eof (t : List Char) :
    ∀ (l : lexer) (fuel : Nat), l.stream.buf = t → '<' ∉ t → t.length < fuel →
      lexText fuel l = Outcome.returned none
        { stream := ⟨[], l.stream.err, none⟩, name := l.name, input := "",
          items := ⟨l.items.sent ++ [⟨itemType.itemText, l.input ++ String.mk t⟩,
            ⟨itemType.itemEOF, ""⟩], l.items.closed⟩ } := by
  induction t with
  | nil =>
    intro l fuel hb _ hf
    obtain ⟨k, rfl⟩ : ∃ k, fuel = k + 1 := ⟨fuel - 1, by omega⟩
    unfold lexText
    rw [ReadRune_nil _ hb]
    simp [lexer.emit, append_mk_nil, hb]
  | cons c cs ih =>
    intro l fuel hb hlt hf
    obtain ⟨k, rfl⟩ : ∃ k, fuel = k + 1 := ⟨fuel - 1, by omega⟩
    have hc : c ≠ '<' := fun h => hlt (by simp [h])
    have hcs : '<' ∉ cs := fun h => hlt (List.mem_cons_of_mem _ h)
    unfold lexText
    rw [ReadRune_cons _ c cs hb]
    simp only [reduceCtorEq, utf8Size_ne_zero, or_self, if_false, hc]
    rw [ih _ k rfl hcs (by simpa using hf)]
    simp [push_append_mk]

/-- When the unread runes are `t`, free of `<`, then `<`, then `r`, `lexText`
returns `lexTag` having sent the pending value followed by `t` as one text item,
with `<` as the new pending value and `r` left to read. -/
theorem lexText_lt (t : List Char) (r : List Char) :
    ∀ (l : lexer) (fuel : Nat), l.stream.buf = t ++ '<' :: r → '<' ∉ t → t.length < fuel →
      lexText fuel l = Outcome.returned (some stateFn.lexTag)
        { stream := ⟨r, l.stream.err, some '<'⟩, name := l.name, input := "<",
          items := ⟨l.items.sent ++ [⟨itemType.itemText, l.input ++ String.mk t⟩],
            l.items.closed⟩ } := by
  induction t with
  | nil =>
    intro l fuel hb _ hf
    obtain ⟨k, rfl⟩ : ∃ k, fuel = k + 1 := ⟨fuel - 1, by omega⟩
    unfold lexText
    rw [ReadRune_cons _ '<' r (by simpa using hb)]
    simp [lexer.emit, append_mk_nil, utf8Size_ne_zero]
    rfl
  | cons c cs ih =>
    intro l fuel hb hlt hf
    obtain ⟨k, rfl⟩ : ∃ k, fuel = k + 1 := ⟨fuel - 1, by omega⟩
    have hc : c ≠ '<' := fun h => hlt (by simp [h])
    have hcs : '<' ∉ cs := fun h => hlt (List.mem_cons_of_mem _ h)
    unfold lexText
    rw [ReadRune_cons _ c (cs ++ '<' :: r) (by simpa using hb)]
    simp only [reduceCtorEq, utf8Size_ne_zero, or_self, if_false, hc]
    rw [ih _ k rfl hcs (by simpa using hf)]
    simp [push_append_mk]

/-! ## `lexTag` -/

/-- Once the next rune is not a letter, every turn of the loop of `lexTag` reads
it, pushes it back and sends a tag-name item: after `k + 1` turns the loop is
still running and has sent `k + 1` such items, all but the first with an empty
value. -/
theorem lexTag_loop_stuck (IsLetter : Char → Bool) (c : Char) (rest : List Char)
    (hc : IsLetter c = false) :
    ∀ (k : Nat) (l : lexer), l.stream.buf = c :: rest →
      lexTag.loop IsLetter (k + 1) l = Outcome.running
        { stream := ⟨c :: rest, l.stream.err, none⟩, name := l.name, input := "",
          items := ⟨l.items.sent ++ ⟨itemType.itemTagName, l.input⟩ ::
            List.replicate k ⟨itemType.itemTagName, ""⟩, l.items.closed⟩ } := by
  intro k
  induction k with
  | zero =>
    intro l hb
    unfold lexTag.loop
    rw [ReadRune_cons _ c rest hb]
    simp [utf8Size_ne_zero, hc, Reader.UnreadRune, lexer.emit, lexTag.loop]
  | succ k ih =>
    intro l hb
    unfold lexTag.loop
    rw [ReadRune_cons _ c rest hb]
    simp only [reduceCtorEq, utf8Size_ne_zero, or_self, if_false, hc, Bool.not_false, if_true]
    rw [ih _ (by simp [Reader.UnreadRune, lexer.emit])]
    simp [lexer.emit, Reader.UnreadRune, List.replicate_succ]

/-- With the letters `w` and then a non-letter `c` left to read, the loop of
`lexTag` sends the pending value followed by `w` as a tag-name item and then
keeps sending empty tag-name items without consuming `c`. -/
theorem lexTag_loop_name_stuck (IsLetter : Char → Bool) (c : Char) (rest : List Char)
    (hc : IsLetter c = false) (w : List Char) :
    ∀ (k : Nat) (l : lexer), l.stream.buf = w ++ c :: rest → (∀ x ∈ w, IsLetter x = true) →
      lexTag.loop IsLetter (w.length + (k + 1)) l = Outcome.running
        { stream := ⟨c :: rest, l.stream.err, none⟩, name := l.name, input := "",
          items := ⟨l.items.sent ++ ⟨itemType.itemTagName, l.input ++ String.mk w⟩ ::
            List.replicate k ⟨itemType.itemTagName, ""⟩, l.items.closed⟩ } := by
  induction w with
  | nil =>
    intro k l hb _
    simp only [List.length_nil, Nat.zero_add]
    rw [lexTag_loop_stuck IsLetter c rest hc k l (by simpa using hb), append_mk_nil]
  | cons x xs ih =>
    intro k l hb hw
    have hx : IsLetter x = true := hw x (by simp)
    have hxs : ∀ y ∈ xs, IsLetter y = true := fun y hy => hw y (List.mem_cons_of_mem _ hy)
    have hfuel : (x :: xs).length + (k + 1) = (xs.length + (k + 1)) + 1 := by
      simp only [List.length_cons]; omega
    rw [hfuel]
    unfold lexTag.loop
    rw [ReadRune_cons _ x (xs ++ c :: rest) (by simpa using hb)]
    simp only [reduceCtorEq, utf8Size_ne_zero, or_self, if_false, hx, Bool.not_true]
    rw [ih k _ rfl hxs]
    simp [push_append_mk]

/-- While only letters have been read, the loop of `lexTag` is running and has
sent nothing. -/
theorem lexTag_loop_short (IsLetter : Char → Bool) (w : List Char) :
    ∀ (fuel : Nat) (l : lexer) (r : List Char), l.stream.buf = w ++ r →
      (∀ x ∈ w, IsLetter x = true) → fuel ≤ w.length →
      ∃ l', lexTag.loop IsLetter fuel l = Outcome.running l' ∧
        l'.items = l.items := by
  induction w with
  | nil =>
    intro fuel l r _ _ hf
    have : fuel = 0 := by simpa using hf
    subst this
    exact ⟨l, by simp [lexTag.loop], rfl⟩
  | cons x xs ih =>
    intro fuel l r hb hw hf
    cases fuel with
    | zero => exact ⟨l, by simp [lexTag.loop], rfl⟩
    | succ k =>
      have hx : IsLetter x = true := hw x (by simp)
      have hxs : ∀ y ∈ xs, IsLetter y = true := fun y hy => hw y (List.mem_cons_of_mem _ hy)
      unfold lexTag.loop
      rw [ReadRune_cons _ x (xs ++ r) (by simpa using hb)]
      simp only [reduceCtorEq, utf8Size_ne_zero, or_self, if_false, hx, Bool.not_true]
      exact ih k _ r rfl hxs (by simpa using hf)

/-- With only the letters `w` left to read, the loop of `lexTag` meets the end of
the stream, sends the pending value followed by `w` as an end marker, and
`lexTag` returns `lexAttributes`. -/
theorem lexTag_loop_eof (IsLetter : Char → Bool) (w : List Char) :
    ∀ (l : lexer) (fuel : Nat), l.stream.buf = w → (∀ x ∈ w, IsLetter x = true) →
      w.length < fuel →
      lexTag.loop IsLetter fuel l = Outcome.returned (some stateFn.lexAttributes)
        { stream := ⟨[], l.stream.err, none⟩, name := l.name, input := "",
          items := ⟨l.items.sent ++ [⟨itemType.itemEOF, l.input ++ String.mk w⟩],
            l.items.closed⟩ } := by
  induction w with
  | nil =>
    intro l fuel hb _ hf
    obtain ⟨k, rfl⟩ : ∃ k, fuel = k + 1 := ⟨fuel - 1, by omega⟩
    unfold lexTag.loop
    rw [ReadRune_nil _ hb]
    simp [lexer.emit, append_mk_nil, hb]
  | cons x xs ih =>
    intro l fuel hb hw hf
    obtain ⟨k, rfl⟩ : ∃ k, fuel = k + 1 := ⟨fuel - 1, by omega⟩
    have hx : IsLetter x = true := hw x (by simp)
    have hxs : ∀ y ∈ xs, IsLetter y = true := fun y hy => hw y (List.mem_cons_of_mem _ hy)
    unfold lexTag.loop
    rw [ReadRune_cons _ x xs hb]
    simp only [reduceCtorEq, utf8Size_ne_zero, or_self, if_false, hx, Bool.not_true]
    rw [ih _ k rfl hxs (by simpa using hf)]
    simp [push_append_mk]

theorem lexTag_eq (IsLetter : Char → Bool) (fuel : Nat) (l : lexer) :
    lexTag IsLetter fuel l = lexTag.loop IsLetter fuel (afterPeek l) := by
  unfold lexTag afterPeek
  by_cases h : l.stream.buf.head? = some '/' <;>
    simp [Reader.Peak, lexer.emit, h]

/-- With a non-letter `c` ahead after the letters `w`, the loop of `lexTag` is
still running whatever the step budget. -/
theorem lexTag_loop_diverges (IsLetter : Char → Bool) (c : Char) (rest : List Char)
    (hc : IsLetter c = false) (w : List Char) (l : lexer) (hb : l.stream.buf = w ++ c :: rest)
    (hw : ∀ x ∈ w, IsLetter x = true) (fuel : Nat) :
    ∃ l', lexTag.loop IsLetter fuel l = Outcome.running l' := by
  by_cases hf : fuel ≤ w.length
  · obtain ⟨l', h, _⟩ := lexTag_loop_short IsLetter w fuel l (c :: rest) hb hw hf
    exact ⟨l', h⟩
  · obtain ⟨k, rfl⟩ : ∃ k, fuel = w.length + (k + 1) := ⟨fuel - w.length - 1, by omega⟩
    exact ⟨_, lexTag_loop_name_stuck IsLetter c rest hc w k l hb hw⟩

/-- While only runes other than `<` have been read, `lexText` is running and has
sent nothing. -/
theorem lexText_short (t : List Char) :
    ∀ (fuel : Nat) (l : lexer) (r : List Char), l.stream.buf = t ++ r → '<' ∉ t →
      fuel ≤ t.length →
      ∃ l', lexText fuel l = Outcome.running l' ∧ l'.items = l.items := by
  induction t with
  | nil =>
    intro fuel l r _ _ hf
    have : fuel = 0 := by simpa using hf
    subst this
    exact ⟨l, by simp [lexText], rfl⟩
  | cons x xs ih =>
    intro fuel l r hb hlt hf
    cases fuel with
    | zero => exact ⟨l, by simp [lexText], rfl⟩
    | succ k =>
      have hx : x ≠ '<' := fun h => hlt (by simp [h])
      have hxs : '<' ∉ xs := fun h => hlt (List.mem_cons_of_mem _ h)
      unfold lexText
      rw [ReadRune_cons _ x (xs ++ r) (by simpa using hb)]
      simp only [reduceCtorEq, utf8Size_ne_zero, or_self, if_false, hx]
      exact ih k _ r rfl hxs (by simpa using hf)

/-! ## `lexAttributes` -/

/-- At the end of a stream that ends with `io.EOF`, `lexAttributes` sends the
pending value as an end marker and returns `nil`. -/
theorem lexAttributes_eof (IsLetter : Char → Bool) (fuel : Nat) (l : lexer)
    (hb : l.stream.buf = []) (he : l.stream.err = ioError.EOF) :
    lexAttributes IsLetter fuel l = Outcome.returned none
      { stream := ⟨[], ioError.EOF, none⟩, name := l.name, input := "",
        items := ⟨l.items.sent ++ [⟨itemType.itemEOF, l.input⟩], l.items.closed⟩ } := by
  unfold lexAttributes
  rw [ReadRune_nil _ hb]
  simp [he, lexer.emit, hb]

/-- At the end of a stream that ends with another error than `io.EOF`,
`lexAttributes` returns `nil` and sends nothing. -/
theorem lexAttributes_err (IsLetter : Char → Bool) (fuel : Nat) (l : lexer)
    (hb : l.stream.buf = []) (he : l.stream.err = ioError.other) :
    lexAttributes IsLetter fuel l = Outcome.returned none
      { l with stream := ⟨[], ioError.other, none⟩ } := by
  unfold lexAttributes
  rw [ReadRune_nil _ hb]
  simp [he, hb]

/-! ## The run loop -/

theorem run_loop_nil (IsLetter : Char → Bool) (k : Nat) (l : lexer) :
    run.loop IsLetter (k + 1) none l =
      Outcome.returned () { l with items := { l.items with closed := true } } := by
  simp [run.loop]

theorem run_loop_returned (IsLetter : Char → Bool) (k : Nat) (st : stateFn) (l l' : lexer)
    (st' : Option stateFn) (h : callState IsLetter st k l = Outcome.returned st' l') :
    run.loop IsLetter (k + 1) (some st) l = run.loop IsLetter k st' l' := by
  simp [run.loop, h]

theorem run_loop_running (IsLetter : Char → Bool) (k : Nat) (st : stateFn) (l l' : lexer)
    (h : callState IsLetter st k l = Outcome.running l') :
    run.loop IsLetter (k + 1) (some st) l = Outcome.running l' := by
  simp [run.loop, h]

theorem run_lexText_returned (IsLetter : Char → Bool) (k : Nat) (l l' : lexer)
    (st' : Option stateFn) (h : lexText k l = Outcome.returned st' l') :
    run.loop IsLetter (k + 1) (some stateFn.lexText) l = run.loop IsLetter k st' l' :=
  run_loop_returned IsLetter k stateFn.lexText l l' st' h

theorem run_lexTag_returned (IsLetter : Char → Bool) (k : Nat) (l l' : lexer)
    (st' : Option stateFn) (h : lexTag IsLetter k l = Outcome.returned st' l') :
    run.loop IsLetter (k + 1) (some stateFn.lexTag) l = run.loop IsLetter k st' l' :=
  run_loop_returned IsLetter k stateFn.lexTag l l' st' h

theorem run_lexAttributes_returned (IsLetter : Char → Bool) (k : Nat) (l l' : lexer)
    (st' : Option stateFn) (h : lexAttributes IsLetter k l = Outcome.returned st' l') :
    run.loop IsLetter (k + 1) (some stateFn.lexAttributes) l = run.loop IsLetter k st' l' :=
  run_loop_returned IsLetter k stateFn.lexAttributes l l' st' h

theorem run_lexText_running (IsLetter : Char → Bool) (k : Nat) (l l' : lexer)
    (h : lexText k l = Outcome.running l') :
    run.loop IsLetter (k + 1) (some stateFn.lexText) l = Outcome.running l' :=
  run_loop_running IsLetter k stateFn.lexText l l' h

theorem run_lexTag_running (IsLetter : Char → Bool) (k : Nat) (l l' : lexer)
    (h : lexTag IsLetter k l = Outcome.running l') :
    run.loop IsLetter (k + 1) (some stateFn.lexTag) l = Outcome.running l' :=
  run_loop_running IsLetter k stateFn.lexTag l l' h

/-- An input `t`, `<`, letters `w`, a non-letter `c`, anything: the run is caught
in the loop of `lexTag`, and the tokens sent are the text `t`, the start tag, a
close tag if `/` was peeked, the tag name `w`, and then one empty tag name for
every further step. -/
theorem lex_tag_stuck (IsLetter : Char → Bool) (name : String) (e : ioError)
    (t w : List Char) (c : Char) (rest : List Char) (ht : '<' ∉ t)
    (hw : ∀ x ∈ w, IsLetter x = true) (hc : IsLetter c = false) (k : Nat)
    (hk : t.length < w.length + k + 2) (fuel : Nat) (hf : fuel = w.length + k + 3) :
    lex IsLetter name ⟨t ++ '<' :: (w ++ c :: rest), e⟩ fuel =
      Outcome.running
        { stream := ⟨c :: rest, e, none⟩, name := name, input := "",
          items := ⟨tagHead t (w ++ c :: rest) ++ ⟨itemType.itemTagName, String.mk w⟩ ::
            List.replicate k ⟨itemType.itemTagName, ""⟩, false⟩ } := by
  have hf' : fuel = w.length + (k + 1) + 2 := by omega
  subst hf'
  have h1 := lexText_lt t (w ++ c :: rest) (newLexer name ⟨t ++ '<' :: (w ++ c :: rest), e⟩)
    (w.length + (k + 1) + 1) rfl ht (by omega)
  have h2 := run_lexText_returned IsLetter _ _ _ _ h1
  unfold lex run
  rw [h2]
  apply run_lexTag_running
  rw [lexTag_eq, lexTag_loop_name_stuck IsLetter c rest hc w k _ rfl hw]
  simp [afterPeek, newLexer, NewReader, tagHead, empty_append_mk_data]

/-- An input `t`, `<`, letters `w`, a non-letter `c`, anything: whatever the step
budget, `run` has not returned, and the tokens sent are none, or those up to the
loop of `lexTag`, or those followed by the tag name `w` and empty tag names. -/
theorem lex_tag_diverges (IsLetter : Char → Bool) (name : String) (e : ioError)
    (t w : List Char) (c : Char) (rest : List Char) (ht : '<' ∉ t)
    (hw : ∀ x ∈ w, IsLetter x = true) (hc : IsLetter c = false) (fuel : Nat) :
    ∃ l', lex IsLetter name ⟨t ++ '<' :: (w ++ c :: rest), e⟩ fuel = Outcome.running l' ∧
      (l'.items.sent = [] ∨ l'.items.sent = tagHead t (w ++ c :: rest) ∨
        ∃ k, l'.items.sent = tagHead t (w ++ c :: rest) ++
          ⟨itemType.itemTagName, String.mk w⟩ :: List.replicate k ⟨itemType.itemTagName, ""⟩) := by
  by_cases hbig : w.length + 3 ≤ fuel ∧ t.length + 2 ≤ fuel
  · have h := lex_tag_stuck IsLetter name e t w c rest ht hw hc (fuel - w.length - 3)
      (by omega) fuel (by omega)
    exact ⟨_, h, Or.inr (Or.inr ⟨_, rfl⟩)⟩
  · unfold lex run
    cases fuel with
    | zero => exact ⟨_, rfl, Or.inl rfl⟩
    | succ f =>
      by_cases hf : f ≤ t.length
      · obtain ⟨l', h, hi⟩ := lexText_short t f
          (newLexer name ⟨t ++ '<' :: (w ++ c :: rest), e⟩) ('<' :: (w ++ c :: rest)) rfl ht hf
        exact ⟨l', run_lexText_running IsLetter f _ _ h, Or.inl (by rw [hi]; rfl)⟩
      · have h1 := lexText_lt t (w ++ c :: rest)
          (newLexer name ⟨t ++ '<' :: (w ++ c :: rest), e⟩) f rfl ht (by omega)
        rw [run_lexText_returned IsLetter f _ _ _ h1]
        obtain ⟨g, rfl⟩ : ∃ g, f = g + 1 := ⟨f - 1, by omega⟩
        obtain ⟨l', h, hi⟩ := lexTag_loop_short IsLetter w g
          (afterPeek ⟨⟨w ++ c :: rest,
            (newLexer name ⟨t ++ '<' :: (w ++ c :: rest), e⟩).stream.err,
            some '<'⟩, (newLexer name ⟨t ++ '<' :: (w ++ c :: rest), e⟩).name, "<",
            ⟨(newLexer name ⟨t ++ '<' :: (w ++ c :: rest), e⟩).items.sent ++
              [⟨itemType.itemText, (newLexer name ⟨t ++ '<' :: (w ++ c :: rest), e⟩).input ++
                String.mk t⟩],
              (newLexer name ⟨t ++ '<' :: (w ++ c :: rest), e⟩).items.closed⟩⟩)
          (c :: rest) rfl hw (by omega)
        rw [← lexTag_eq] at h
        refine ⟨l', run_lexTag_running IsLetter g _ _ h, Or.inr (Or.inl ?_)⟩
        rw [hi]
        simp [afterPeek, newLexer, NewReader, tagHead, empty_append_mk_data]

/-- On such an input only text, start-tag, close-tag and tag-name items are ever
sent. -/
theorem lex_tag_diverges_kinds (IsLetter : Char → Bool) (name : String) (e : ioError)
    (t w : List Char) (c : Char) (rest : List Char) (ht : '<' ∉ t)
    (hw : ∀ x ∈ w, IsLetter x = true) (hc : IsLetter c = false) (fuel : Nat) :
    ∀ i ∈ (lex IsLetter name ⟨t ++ '<' :: (w ++ c :: rest), e⟩ fuel).tokens,
      i.typ = itemType.itemText ∨ i.typ = itemType.itemStartTag ∨
        i.typ = itemType.itemCloseTag ∨ i.typ = itemType.itemTagName := by
  intro i hi
  obtain ⟨l, h, hs⟩ := lex_tag_diverges IsLetter name e t w c rest ht hw hc fuel
  rw [h] at hi
  simp only [Outcome.tokens, Outcome.lexer] at hi
  rcases hs with hs | hs | ⟨k, hs⟩
  · rw [hs] at hi; simp at hi
  · rw [hs] at hi
    simp only [tagHead, List.mem_cons] at hi
    rcases hi with rfl | rfl | hi
    · simp
    · simp
    · split at hi
      · simp at hi; subst hi; simp
      · simp at hi
  · rw [hs] at hi
    simp only [tagHead, List.mem_append, List.mem_cons, List.mem_replicate] at hi
    rcases hi with (rfl | rfl | hi) | rfl | ⟨_, rfl⟩
    · simp
    · simp
    · split at hi
      · simp at hi; subst hi; simp
      · simp at hi
    · simp
    · simp

/-- On such an input, once enough steps have been made, the tokens sent begin
with those up to the loop of `lexTag` followed by the tag name `w`. -/
theorem lex_tag_stuck_prefix (IsLetter : Char → Bool) (name : String) (e : ioError)
    (t w : List Char) (c : Char) (rest : List Char) (ht : '<' ∉ t)
    (hw : ∀ x ∈ w, IsLetter x = true) (hc : IsLetter c = false) (fuel : Nat)
    (h1 : w.length + 3 ≤ fuel) (h2 : t.length + 2 ≤ fuel) :
    tagHead t (w ++ c :: rest) ++ [⟨itemType.itemTagName, String.mk w⟩] <+:
      (lex IsLetter name ⟨t ++ '<' :: (w ++ c :: rest), e⟩ fuel).tokens := by
  have h := lex_tag_stuck IsLetter name e t w c rest ht hw hc (fuel - w.length - 3)
    (by omega) fuel (by omega)
  rw [h]
  exact ⟨List.replicate (fuel - w.length - 3) ⟨itemType.itemTagName, ""⟩, by
    simp [Outcome.tokens, Outcome.lexer]⟩

/-- An input `t`, `<`, then only letters `w`, on a stream that ends with
`io.EOF`: the run returns, and the tokens sent are the text `t`, the start tag, a
close tag if `/` was peeked, an end marker whose value is `w`, and a second end
marker. -/
theorem lex_tag_eof (IsLetter : Char → Bool) (name : String)
    (t w : List Char) (ht : '<' ∉ t) (hw : ∀ x ∈ w, IsLetter x = true) (h : Nat)
    (h1 : t.length < h + 3) (h2 : w.length < h + 2) :
    lex IsLetter name ⟨t ++ '<' :: w, ioError.EOF⟩ (h + 4) =
      Outcome.returned ()
        { stream := ⟨[], ioError.EOF, none⟩, name := name, input := "",
          items := ⟨tagHead t w ++ [⟨itemType.itemEOF, String.mk w⟩, ⟨itemType.itemEOF, ""⟩],
            true⟩ } := by
  have e1 := lexText_lt t w (newLexer name ⟨t ++ '<' :: w, ioError.EOF⟩) (h + 3) rfl ht h1
  unfold lex run
  rw [run_lexText_returned IsLetter _ _ _ _ e1]
  have e2 := lexTag_loop_eof IsLetter w
    (afterPeek ⟨⟨w, (newLexer name ⟨t ++ '<' :: w, ioError.EOF⟩).stream.err,
          some '<'⟩, (newLexer name ⟨t ++ '<' :: w, ioError.EOF⟩).name, "<",
          ⟨(newLexer name ⟨t ++ '<' :: w, ioError.EOF⟩).items.sent ++
            [⟨itemType.itemText, (newLexer name ⟨t ++ '<' :: w, ioError.EOF⟩).input ++
              String.mk t⟩], (newLexer name ⟨t ++ '<' :: w, ioError.EOF⟩).items.closed⟩⟩)
    (h + 2) rfl hw h2
  rw [← lexTag_eq] at e2
  rw [run_lexTag_returned IsLetter _ _ _ _ e2]
  rw [run_lexAttributes_returned IsLetter (h + 1) _ _ _
    (lexAttributes_eof IsLetter (h + 1) _ rfl rfl)]
  rw [run_loop_nil]
  simp [afterPeek, newLexer, NewReader, tagHead, empty_append_mk_data]

/-! ## The shape of the token sequence of a run -/

theorem split_lt (d : List Char) : '<' ∉ d ∨ ∃ t r, d = t ++ '<' :: r ∧ '<' ∉ t := by
  induction d with
  | nil => exact Or.inl (by simp)
  | cons x xs ih =>
    by_cases hx : x = '<'
    · exact Or.inr ⟨[], xs, by simp [hx], by simp⟩
    · rcases ih with h | ⟨t, r, rfl, ht⟩
      · exact Or.inl (by simp [h, Ne.symm hx])
      · exact Or.inr ⟨x :: t, r, by simp, by simp [ht, Ne.symm hx]⟩

theorem split_letters (IsLetter : Char → Bool) (r : List Char) :
    ∃ w rest, r = w ++ rest ∧ (∀ x ∈ w, IsLetter x = true) ∧
      (rest = [] ∨ ∃ c rest', rest = c :: rest' ∧ IsLetter c = false) := by
  induction r with
  | nil => exact ⟨[], [], rfl, by simp, Or.inl rfl⟩
  | cons x xs ih =>
    by_cases hx : IsLetter x = true
    · obtain ⟨w, rest, rfl, hw, hr⟩ := ih
      refine ⟨x :: w, rest, by simp, ?_, hr⟩
      intro y hy
      rcases List.mem_cons.mp hy with rfl | hy
      · exact hx
      · exact hw y hy
    · exact ⟨[], x :: xs, rfl, by simp, Or.inr ⟨x, xs, rfl, by simpa using hx⟩⟩

/-- What `lexText` leaves when it returns `lexTag`, in terms of the fields the
later steps depend on. -/
theorem lexText_lt_fields (t r : List Char) (name : String) (e : ioError) (f : Nat)
    (ht : '<' ∉ t) (hf : t.length < f) :
    ∃ L, lexText f (newLexer name ⟨t ++ '<' :: r, e⟩) =
        Outcome.returned (some stateFn.lexTag) L ∧
      L.stream.buf = r ∧ L.stream.err = e ∧ L.input = "<" ∧
      L.items.sent = [⟨itemType.itemText, String.mk t⟩] :=
  ⟨_, lexText_lt t r (newLexer name ⟨t ++ '<' :: r, e⟩) f rfl ht hf, rfl, rfl, rfl, by
    simp [newLexer, empty_append_mk_data]⟩

theorem afterPeek_sent (L : lexer) (t r : List Char) (hb : L.stream.buf = r)
    (hi : L.input = "<") (hs : L.items.sent = [⟨itemType.itemText, String.mk t⟩]) :
    (afterPeek L).items.sent = tagHead t r := by
  simp [afterPeek, tagHead, hb, hi, hs]

/-- An input without `<`: the tokens sent are none, or the whole input as one
text item followed by the end marker. -/
theorem lex_text_shape (IsLetter : Char → Bool) (name : String) (e : ioError)
    (d : List Char) (hd : '<' ∉ d) (fuel : Nat) :
    (lex IsLetter name ⟨d, e⟩ fuel).tokens = [] ∨
      (lex IsLetter name ⟨d, e⟩ fuel).tokens =
        [⟨itemType.itemText, String.mk d⟩, ⟨itemType.itemEOF, ""⟩] := by
  unfold lex run
  cases fuel with
  | zero => exact Or.inl rfl
  | succ f =>
    by_cases hf : f ≤ d.length
    · obtain ⟨l', h, hi⟩ := lexText_short d f (newLexer name ⟨d, e⟩) []
        (by simp [newLexer, NewReader]) hd hf
      rw [run_lexText_running IsLetter f _ _ h]
      exact Or.inl (by simp [Outcome.tokens, Outcome.lexer, hi, newLexer])
    · have h1 := lexText_eof d (newLexer name ⟨d, e⟩) f rfl hd (by omega)
      rw [run_lexText_returned IsLetter f _ _ _ h1]
      obtain ⟨g, rfl⟩ : ∃ g, f = g + 1 := ⟨f - 1, by omega⟩
      rw [run_loop_nil]
      exact Or.inr (by simp [Outcome.tokens, Outcome.lexer, newLexer, empty_append_mk_data])

/-- An input `t`, `<`, then only letters `w`: the tokens sent are none, or those
up to the loop of `lexTag`, or those followed by an end marker whose value is
`w`, or those followed by that end marker and a second, empty one. -/
theorem lex_tag_eof_shape (IsLetter : Char → Bool) (name : String) (e : ioError)
    (t w : List Char) (ht : '<' ∉ t) (hw : ∀ x ∈ w, IsLetter x = true) (fuel : Nat) :
    (lex IsLetter name ⟨t ++ '<' :: w, e⟩ fuel).tokens = [] ∨
      (lex IsLetter name ⟨t ++ '<' :: w, e⟩ fuel).tokens = tagHead t w ∨
      (lex IsLetter name ⟨t ++ '<' :: w, e⟩ fuel).tokens =
        tagHead t w ++ [⟨itemType.itemEOF, String.mk w⟩] ∨
      (lex IsLetter name ⟨t ++ '<' :: w, e⟩ fuel).tokens =
        tagHead t w ++ [⟨itemType.itemEOF, String.mk w⟩, ⟨itemType.itemEOF, ""⟩] := by
  unfold lex run
  cases fuel with
  | zero => exact Or.inl rfl
  | succ f =>
    by_cases hf : f ≤ t.length
    · obtain ⟨l', h, hi⟩ := lexText_short t f (newLexer name ⟨t ++ '<' :: w, e⟩) ('<' :: w)
        rfl ht hf
      rw [run_lexText_running IsLetter f _ _ h]
      exact Or.inl (by simp [Outcome.tokens, Outcome.lexer, hi, newLexer])
    · obtain ⟨L, h1, hLb, hLe, hLi, hLs⟩ := lexText_lt_fields t w name e f ht (by omega)
      rw [run_lexText_returned IsLetter f _ _ _ h1]
      obtain ⟨g, rfl⟩ : ∃ g, f = g + 1 := ⟨f - 1, by omega⟩
      have hsent := afterPeek_sent L t w hLb hLi hLs
      have hin : (afterPeek L).input ++ String.mk w = String.mk w := by
        apply String.ext
        simp [afterPeek, String.data_append]
      by_cases hg : g ≤ w.length
      · obtain ⟨l', h, hi⟩ := lexTag_loop_short IsLetter w g (afterPeek L) []
          (by simp [afterPeek, hLb]) hw hg
        rw [← lexTag_eq] at h
        rw [run_lexTag_running IsLetter g _ _ h]
        exact Or.inr (Or.inl (by simp [Outcome.tokens, Outcome.lexer, hi, hsent]))
      · have h2 := lexTag_loop_eof IsLetter w (afterPeek L) g (by simp [afterPeek, hLb]) hw
          (by omega)
        rw [← lexTag_eq] at h2
        rw [run_lexTag_returned IsLetter g _ _ _ h2]
        obtain ⟨h, rfl⟩ : ∃ h, g = h + 1 := ⟨g - 1, by omega⟩
        cases e with
        | EOF =>
          rw [run_lexAttributes_returned IsLetter h _ _ _
            (lexAttributes_eof IsLetter h _ rfl (by simp [afterPeek, hLe]))]
          refine Or.inr (Or.inr (Or.inr ?_))
          cases h with
          | zero => simp [run.loop, Outcome.tokens, Outcome.lexer, hsent, hin]
          | succ h' =>
            rw [run_loop_nil]
            simp [Outcome.tokens, Outcome.lexer, hsent, hin]
        | other =>
          rw [run_lexAttributes_returned IsLetter h _ _ _
            (lexAttributes_err IsLetter h _ rfl (by simp [afterPeek, hLe]))]
          refine Or.inr (Or.inr (Or.inl ?_))
          cases h with
          | zero => simp [run.loop, Outcome.tokens, Outcome.lexer, hsent, hin]
          | succ h' =>
            rw [run_loop_nil]
            simp [Outcome.tokens, Outcome.lexer, hsent, hin]

/-- Whatever the input and the step budget, the tokens sent have one of these
shapes. -/
theorem lex_shape (IsLetter : Char → Bool) (name : String) (input : ioReader) (fuel : Nat) :
    (lex IsLetter name input fuel).tokens = [] ∨
      (∃ d, '<' ∉ d ∧ (lex IsLetter name input fuel).tokens =
        [⟨itemType.itemText, String.mk d⟩, ⟨itemType.itemEOF, ""⟩]) ∨
      (∃ t r w, '<' ∉ t ∧ (∀ x ∈ w, IsLetter x = true) ∧
        ((lex IsLetter name input fuel).tokens = tagHead t r ∨
          (∃ k, (lex IsLetter name input fuel).tokens = tagHead t r ++
            ⟨itemType.itemTagName, String.mk w⟩ ::
              List.replicate k ⟨itemType.itemTagName, ""⟩) ∨
          (lex IsLetter name input fuel).tokens =
            tagHead t r ++ [⟨itemType.itemEOF, String.mk w⟩] ∨
          (lex IsLetter name input fuel).tokens =
            tagHead t r ++ [⟨itemType.itemEOF, String.mk w⟩, ⟨itemType.itemEOF, ""⟩])) := by
  obtain ⟨d, e⟩ := input
  rcases split_lt d with hd | ⟨t, r, rfl, ht⟩
  · rcases lex_text_shape IsLetter name e d hd fuel with h | h
    · exact Or.inl h
    · exact Or.inr (Or.inl ⟨d, hd, h⟩)
  · obtain ⟨w, rest, rfl, hw, hrest⟩ := split_letters IsLetter r
    rcases hrest with rfl | ⟨c, rest', rfl, hc⟩
    · rw [List.append_nil]
      rcases lex_tag_eof_shape IsLetter name e t w ht hw fuel with h | h | h | h
      · exact Or.inl h
      · exact Or.inr (Or.inr ⟨t, w, w, ht, hw, Or.inl h⟩)
      · exact Or.inr (Or.inr ⟨t, w, w, ht, hw, Or.inr (Or.inr (Or.inl h))⟩)
      · exact Or.inr (Or.inr ⟨t, w, w, ht, hw, Or.inr (Or.inr (Or.inr h))⟩)
    · obtain ⟨l', h, hs⟩ := lex_tag_diverges IsLetter name e t w c rest' ht hw hc fuel
      rw [h]
      simp only [Outcome.tokens, Outcome.lexer]
      rcases hs with hs | hs | ⟨k, hs⟩
      · exact Or.inl hs
      · exact Or.inr (Or.inr ⟨t, w ++ c :: rest', w, ht, hw, Or.inl hs⟩)
      · exact Or.inr (Or.inr ⟨t, w ++ c :: rest', w, ht, hw, Or.inr (Or.inl ⟨k, hs⟩)⟩)

/-! ## Consecutive tokens share no character -/

theorem disjointValues_empty_right (a : item) (t : itemType) : disjointValues a ⟨t, ""⟩ := by
  intro c _ h
  simp at h

theorem disjointValues_empty_left (t : itemType) (b : item) : disjointValues ⟨t, ""⟩ b := by
  intro c h
  simp at h

theorem chain_cons_empties (x : item) (t : itemType) (k : Nat) :
    List.Chain' disjointValues (x :: List.replicate k ⟨t, ""⟩) := by
  rw [List.chain'_cons']
  constructor
  · intro y hy
    cases k with
    | zero => simp at hy
    | succ k =>
      simp [List.replicate_succ] at hy
      subst hy
      exact disjointValues_empty_right x t
  · exact List.chain'_replicate_of_rel k (disjointValues_empty_right _ t)

theorem chain_tagHead (t r : List Char) (X : List item) (ht : '<' ∉ t)
    (hX : List.Chain' disjointValues (⟨itemType.itemStartTag, "<"⟩ :: X)) :
    List.Chain' disjointValues (tagHead t r ++ X) := by
  have h1 : disjointValues ⟨itemType.itemText, String.mk t⟩ ⟨itemType.itemStartTag, "<"⟩ := by
    intro c hc h
    have : c = '<' := by simpa using h
    subst this
    exact ht hc
  rw [List.chain'_cons'] at hX
  unfold tagHead
  split_ifs
  · simp only [List.cons_append, List.nil_append]
    rw [List.chain'_cons, List.chain'_cons, List.chain'_cons']
    exact ⟨h1, disjointValues_empty_right _ _,
      fun y _ => disjointValues_empty_left _ y, hX.2⟩
  · simp only [List.cons_append, List.nil_append]
    rw [List.chain'_cons, List.chain'_cons']
    exact ⟨h1, hX⟩

/-- Whatever the input and the step budget, no two consecutive tokens sent share
a character, provided `<` is not a letter. -/
theorem lex_chain (IsLetter : Char → Bool) (hlt : IsLetter '<' = false) (name : String)
    (input : ioReader) (fuel : Nat) :
    List.Chain' disjointValues (lex IsLetter name input fuel).tokens := by
  have hstart : ∀ w : List Char, (∀ x ∈ w, IsLetter x = true) → ∀ t : itemType,
      disjointValues ⟨itemType.itemStartTag, "<"⟩ ⟨t, String.mk w⟩ := by
    intro w hw t c hc h
    have : c = '<' := by simpa using hc
    subst this
    have := hw '<' h
    rw [hlt] at this
    exact Bool.noConfusion this
  rcases lex_shape IsLetter name input fuel with h | ⟨d, _, h⟩ | ⟨t, r, w, ht, hw, h⟩
  · rw [h]; exact List.chain'_nil
  · rw [h, List.chain'_pair]
    exact disjointValues_empty_right _ _
  · rcases h with h | ⟨k, h⟩ | h | h
    · rw [h]
      have := chain_tagHead t r [] ht (List.chain'_singleton _)
      simpa using this
    · rw [h]
      apply chain_tagHead t r _ ht
      rw [List.chain'_cons]
      exact ⟨hstart w hw _, chain_cons_empties _ _ k⟩
    · rw [h]
      apply chain_tagHead t r _ ht
      rw [List.chain'_pair]
      exact hstart w hw _
    · rw [h]
      apply chain_tagHead t r _ ht
      rw [List.chain'_cons, List.chain'_pair]
      exact ⟨hstart w hw _, disjointValues_empty_right _ _⟩

/-! ## The kinds of token that are sent -/

theorem kindsOK_emit (l : lexer) (t : itemType) (h : kindsOK l) (ht : t ∈ producedKinds) :
    kindsOK (l.emit t) := by
  intro i hi
  simp only [lexer.emit, List.mem_append, List.mem_singleton] at hi
  rcases hi with hi | rfl
  · exact h i hi
  · exact ht

theorem kindsOK_of_items (l l' : lexer) (h : kindsOK l)
    (hi : l'.items.sent = l.items.sent) : kindsOK l' := by
  unfold kindsOK
  rw [hi]
  exact h

theorem lexText_kinds : ∀ (fuel : Nat) (l : lexer), kindsOK l → kindsOK (lexText fuel l).lexer
  | 0, _, h => h
  | fuel + 1, l, h => by
    unfold lexText
    rcases l.stream.ReadRune with ⟨next, n, err, s⟩
    dsimp only
    split_ifs
    · exact kindsOK_emit _ _ (kindsOK_emit _ _ (kindsOK_of_items l _ h rfl) (by decide))
        (by decide)
    · exact kindsOK_of_items _ _ (kindsOK_emit _ _ (kindsOK_of_items l _ h rfl) (by decide)) rfl
    · exact lexText_kinds fuel _ (kindsOK_of_items l _ h rfl)

theorem lexTag_loop_kinds (IsLetter : Char → Bool) :
    ∀ (fuel : Nat) (l : lexer), kindsOK l → kindsOK (lexTag.loop IsLetter fuel l).lexer
  | 0, _, h => h
  | fuel + 1, l, h => by
    unfold lexTag.loop
    rcases l.stream.ReadRune with ⟨next, n, err, s⟩
    dsimp only
    split_ifs
    · exact kindsOK_emit _ _ (kindsOK_of_items l _ h rfl) (by decide)
    · exact lexTag_loop_kinds IsLetter fuel _
        (kindsOK_emit _ _ (kindsOK_of_items l _ h rfl) (by decide))
    · exact lexTag_loop_kinds IsLetter fuel _ (kindsOK_of_items l _ h rfl)

theorem lexTag_kinds (IsLetter : Char → Bool) (fuel : Nat) (l : lexer) (h : kindsOK l) :
    kindsOK (lexTag IsLetter fuel l).lexer := by
  unfold lexTag
  dsimp only
  apply lexTag_loop_kinds
  split_ifs
  · exact kindsOK_emit _ _ (kindsOK_of_items _ _ (kindsOK_emit _ _ h (by decide)) rfl)
      (by decide)
  · exact kindsOK_of_items _ _ (kindsOK_emit _ _ h (by decide)) rfl

theorem lexAttributes_loop_kinds (IsLetter : Char → Bool) (next : Char) :
    ∀ (fuel : Nat) (l : lexer), kindsOK l →
      kindsOK (lexAttributes.loop IsLetter next fuel l).lexer
  | 0, _, h => h
  | fuel + 1, l, h => by
    unfold lexAttributes.loop
    split_ifs
    · exact lexAttributes_loop_kinds IsLetter next fuel _ (kindsOK_of_items l _ h rfl)
    · exact kindsOK_emit _ _ h (by decide)

theorem lexAttributes_kinds (IsLetter : Char → Bool) (fuel : Nat) (l : lexer)
    (h : kindsOK l) : kindsOK (lexAttributes IsLetter fuel l).lexer := by
  unfold lexAttributes
  rcases l.stream.ReadRune with ⟨next, n, err, s⟩
  dsimp only
  split_ifs
  · exact kindsOK_emit _ _ (kindsOK_of_items l _ h rfl) (by decide)
  · exact kindsOK_of_items l _ h rfl
  · exact kindsOK_emit _ _ (kindsOK_of_items l _ h rfl) (by decide)
  · exact kindsOK_emit _ _ (kindsOK_of_items l _ h rfl) (by decide)
  · exact kindsOK_emit _ _ (kindsOK_of_items l _ h rfl) (by decide)
  · exact kindsOK_of_items l _ h rfl
  · exact lexAttributes_loop_kinds IsLetter next fuel _ (kindsOK_of_items l _ h rfl)

theorem callState_kinds (IsLetter : Char → Bool) (st : stateFn) (fuel : Nat) (l : lexer)
    (h : kindsOK l) : kindsOK (callState IsLetter st fuel l).lexer := by
  cases st
  · exact lexText_kinds fuel l h
  · exact lexTag_kinds IsLetter fuel l h
  · exact lexAttributes_kinds IsLetter fuel l h

theorem run_loop_kinds (IsLetter : Char → Bool) :
    ∀ (fuel : Nat) (st : Option stateFn) (l : lexer), kindsOK l →
      kindsOK (run.loop IsLetter fuel st l).lexer
  | 0, _, _, h => h
  | _ + 1, none, l, h => kindsOK_of_items l _ h rfl
  | fuel + 1, some st, l, h => by
    have hc := callState_kinds IsLetter st fuel l h
    unfold run.loop
    cases hr : callState IsLetter st fuel l with
    | returned st' l' =>
      rw [hr] at hc
      exact run_loop_kinds IsLetter fuel st' l' hc
    | running l' =>
      rw [hr] at hc
      exact hc

/-! ## Tokens once sent stay sent -/

theorem sent_emit (B : List item) (l : lexer) (t : itemType) (h : B <+: l.items.sent) :
    B <+: (l.emit t).items.sent :=
  h.trans (List.prefix_append _ _)

theorem lexText_sent (B : List item) :
    ∀ (fuel : Nat) (l : lexer), B <+: l.items.sent → B <+: (lexText fuel l).tokens
  | 0, _, h => h
  | fuel + 1, l, h => by
    unfold lexText
    rcases l.stream.ReadRune with ⟨next, n, err, s⟩
    dsimp only
    split_ifs
    · exact sent_emit B _ _ (sent_emit B _ _ h)
    · exact sent_emit B _ _ h
    · exact lexText_sent B fuel _ h

theorem lexTag_loop_sent (IsLetter : Char → Bool) (B : List item) :
    ∀ (fuel : Nat) (l : lexer), B <+: l.items.sent →
      B <+: (lexTag.loop IsLetter fuel l).tokens
  | 0, _, h => h
  | fuel + 1, l, h => by
    unfold lexTag.loop
    rcases l.stream.ReadRune with ⟨next, n, err, s⟩
    dsimp only
    split_ifs
    · exact sent_emit B _ _ h
    · exact lexTag_loop_sent IsLetter B fuel _ (sent_emit B _ _ h)
    · exact lexTag_loop_sent IsLetter B fuel _ h

theorem lexTag_sent (IsLetter : Char → Bool) (B : List item) (fuel : Nat) (l : lexer)
    (h : B <+: l.items.sent) : B <+: (lexTag IsLetter fuel l).tokens := by
  rw [lexTag_eq]
  apply lexTag_loop_sent
  exact h.trans (List.prefix_append _ _)

theorem lexAttributes_loop_sent (IsLetter : Char → Bool) (next : Char) (B : List item) :
    ∀ (fuel : Nat) (l : lexer), B <+: l.items.sent →
      B <+: (lexAttributes.loop IsLetter next fuel l).tokens
  | 0, _, h => h
  | fuel + 1, l, h => by
    unfold lexAttributes.loop
    split_ifs
    · exact lexAttributes_loop_sent IsLetter next B fuel _ h
    · exact sent_emit B _ _ h

theorem lexAttributes_sent (IsLetter : Char → Bool) (B : List item) (fuel : Nat) (l : lexer)
    (h : B <+: l.items.sent) : B <+: (lexAttributes IsLetter fuel l).tokens := by
  unfold lexAttributes
  rcases l.stream.ReadRune with ⟨next, n, err, s⟩
  dsimp only
  split_ifs
  · exact sent_emit B _ _ h
  · exact h
  · exact sent_emit B _ _ h
  · exact sent_emit B _ _ h
  · exact sent_emit B _ _ h
  · exact h
  · exact lexAttributes_loop_sent IsLetter next B fuel _ h

theorem callState_sent (IsLetter : Char → Bool) (B : List item) (st : stateFn) (fuel : Nat)
    (l : lexer) (h : B <+: l.items.sent) : B <+: (callState IsLetter st fuel l).tokens := by
  cases st
  · exact lexText_sent B fuel l h
  · exact lexTag_sent IsLetter B fuel l h
  · exact lexAttributes_sent IsLetter B fuel l h

theorem run_loop_sent (IsLetter : Char → Bool) (B : List item) :
    ∀ (fuel : Nat) (st : Option stateFn) (l : lexer), B <+: l.items.sent →
      B <+: (run.loop IsLetter fuel st l).tokens
  | 0, _, _, h => h
  | _ + 1, none, _, h => h
  | fuel + 1, some st, l, h => by
    have hc := callState_sent IsLetter B st fuel l h
    unfold run.loop
    cases hr : callState IsLetter st fuel l with
    | returned st' l' =>
      rw [hr] at hc
      exact run_loop_sent IsLetter B fuel st' l' hc
    | running l' =>
      rw [hr] at hc
      exact hc

theorem run_loop_step_sent (IsLetter : Char → Bool) (B : List item) (st : stateFn)
    (fuel : Nat) (l : lexer) (h : B <+: (callState IsLetter st fuel l).tokens) :
    B <+: (run.loop IsLetter (fuel + 1) (some st) l).tokens := by
  unfold run.loop
  cases hr : callState IsLetter st fuel l with
  | returned st' l' =>
    rw [hr] at h
    exact run_loop_sent IsLetter B fuel st' l' h
  | running l' =>
    rw [hr] at h
    exact h

/-- In the final loop of `lexAttributes`, entered with a letter, no turn ends the
loop: it is still running whatever the step budget, and it sends nothing. -/
theorem lexAttributes_loop_diverges (IsLetter : Char → Bool) (next : Char)
    (hn : IsLetter next = true) :
    ∀ (fuel : Nat) (l : lexer),
      ∃ l', lexAttributes.loop IsLetter next fuel l = Outcome.running l' ∧
        l'.items = l.items
  | 0, l => ⟨l, rfl, rfl⟩
  | fuel + 1, l => by
    unfold lexAttributes.loop
    rw [if_pos hn]
    rcases h : ({ l with input := l.input.push next } : lexer).stream.ReadRune with
      ⟨c, n, err, s⟩
    dsimp only
    exact lexAttributes_loop_diverges IsLetter next hn fuel _

/-! ## Claims -/

/-- C1: for every input string without a `<` (the empty string included), and for
every step budget of at least the length of the input plus two, lexing from the
initial Text state returns, the channel is closed, and exactly two tokens were
sent: one Text token whose value is the whole input, then one EndOfInput token. -/
theorem C1_pure_text (IsLetter : Char → Bool) (name : String) (s : String)
    (hs : '<' ∉ s.data) (fuel : Nat) (hf : s.length + 2 ≤ fuel) :
    ∃ l, lex IsLetter name (stringReader s) fuel = Outcome.returned () l ∧
      l.items.closed = true ∧
      l.items.sent = [⟨itemType.itemText, s⟩, ⟨itemType.itemEOF, ""⟩] := by
  obtain ⟨k, rfl⟩ : ∃ k, fuel = k + 2 := ⟨fuel - 2, by omega⟩
  have hlen : s.data.length < k + 1 := by
    have : s.length = s.data.length := rfl
    omega
  have h1 := lexText_eof s.data (newLexer name (stringReader s)) (k + 1) rfl hs hlen
  have h2 := run_lexText_returned IsLetter (k + 1) _ _ _ h1
  rw [run_loop_nil] at h2
  exact ⟨_, h2, rfl, by simp [newLexer, empty_append_mk_data]⟩

/-- Witness of C1 at the input `abc`. -/
theorem C1_pure_text_witness :
    ∃ l, lex asciiLetter "t" (stringReader "abc") 5 = Outcome.returned () l ∧
      l.items.closed = true ∧
      l.items.sent = [⟨itemType.itemText, "abc"⟩, ⟨itemType.itemEOF, ""⟩] :=
  C1_pure_text asciiLetter "t" "abc" (by decide) 5 (by decide)

/-- C2: on the inputs `<br>` and `<a href>` the run loop does not terminate:
whatever the step budget, `run` is still inside the loop of `lexTag`; and on
`<br>` the number of tokens sent grows with the budget (`k + 3` tokens after
`k + 5` steps), so the token sequence is not finite. -/
theorem C2_run_diverges :
    (∀ fuel, ∃ l, lex asciiLetter "" (stringReader "<br>") fuel = Outcome.running l) ∧
    (∀ fuel, ∃ l, lex asciiLetter "" (stringReader "<a href>") fuel = Outcome.running l) ∧
    (∀ k, (lex asciiLetter "" (stringReader "<br>") (k + 5)).tokens.length = k + 3) := by
  refine ⟨?_, ?_, ?_⟩
  · intro fuel
    obtain ⟨l, h, _⟩ := lex_tag_diverges asciiLetter "" ioError.EOF [] ['b', 'r'] '>' []
      (by simp) (by decide) (by decide) fuel
    exact ⟨l, h⟩
  · intro fuel
    obtain ⟨l, h, _⟩ := lex_tag_diverges asciiLetter "" ioError.EOF [] ['a'] ' '
      ['h', 'r', 'e', 'f', '>'] (by simp) (by decide) (by decide) fuel
    exact ⟨l, h⟩
  · intro k
    have h := lex_tag_stuck asciiLetter "" ioError.EOF [] ['b', 'r'] '>' [] (by simp)
      (by decide) (by decide) k (by simp) (k + 5) (by simp; omega)
    have h' : lex asciiLetter "" (stringReader "<br>") (k + 5) = _ := h
    rw [h']
    simp [Outcome.tokens, Outcome.lexer, tagHead]

/-- C3: on the input `<di` (stream ending with `io.EOF`) the run returns with
two EndOfInput tokens sent, not one: the tokens are Text(""), StartTag("<"),
EndOfInput("di"), EndOfInput(""). -/
theorem C3_two_end_markers :
    ∀ h, ∃ l, lex asciiLetter "" (stringReader "<di") (h + 5) = Outcome.returned () l ∧
      l.items.sent = [⟨itemType.itemText, ""⟩, ⟨itemType.itemStartTag, "<"⟩,
        ⟨itemType.itemEOF, "di"⟩, ⟨itemType.itemEOF, ""⟩] ∧
      (l.items.sent.filter (fun i => i.typ = itemType.itemEOF)).length = 2 := by
  intro h
  have e := lex_tag_eof asciiLetter "" [] ['d', 'i'] (by simp) (by decide) (h + 1)
    (by simp) (by simp)
  have e' : lex asciiLetter "" (stringReader "<di") (h + 5) = _ := e
  exact ⟨_, e', by decide, by decide⟩

/-- C4 (counterexample): on the input `<br>`, whatever the step budget, the
tokens sent are never StartTag("<"), TagName("br"), EndTag(">"), Text(""),
EndOfInput; indeed no EndTag and no EndOfInput token is ever sent, and after five
steps the first token is Text(""). -/
theorem C4_br_counterexample :
    (¬ ∃ fuel, (lex asciiLetter "" (stringReader "<br>") fuel).tokens =
      [⟨itemType.itemStartTag, "<"⟩, ⟨itemType.itemTagName, "br"⟩,
        ⟨itemType.itemEndTag, ">"⟩, ⟨itemType.itemText, ""⟩, ⟨itemType.itemEOF, ""⟩]) ∧
    (¬ ∃ fuel, ∃ i ∈ (lex asciiLetter "" (stringReader "<br>") fuel).tokens,
      i.typ = itemType.itemEndTag ∨ i.typ = itemType.itemEOF) ∧
    (lex asciiLetter "" (stringReader "<br>") 5).tokens.head? =
      some ⟨itemType.itemText, ""⟩ := by
  have key : ∀ fuel, ∀ i ∈ (lex asciiLetter "" (stringReader "<br>") fuel).tokens,
      i.typ = itemType.itemText ∨ i.typ = itemType.itemStartTag ∨
        i.typ = itemType.itemCloseTag ∨ i.typ = itemType.itemTagName :=
    fun fuel => lex_tag_diverges_kinds asciiLetter "" ioError.EOF [] ['b', 'r'] '>' []
      (by simp) (by decide) (by decide) fuel
  refine ⟨?_, ?_, by decide⟩
  · rintro ⟨fuel, h⟩
    have := key fuel ⟨itemType.itemEndTag, ">"⟩ (by rw [h]; simp)
    simp at this
  · rintro ⟨fuel, i, hi, h⟩
    have := key fuel i hi
    rcases h with h | h <;> rw [h] at this <;> simp at this

/-- C4 (amended): on the input `<br>`, once five steps have been made, the tokens
sent begin with Text(""), StartTag("<"), TagName("br"); and whatever the step
budget, no AttributeName token has been sent. -/
theorem C4_br_amended (IsLetter : Char → Bool) (hb : IsLetter 'b' = true)
    (hr : IsLetter 'r' = true) (hgt : IsLetter '>' = false) (name : String) :
    (∀ k, [⟨itemType.itemText, ""⟩, ⟨itemType.itemStartTag, "<"⟩,
        ⟨itemType.itemTagName, "br"⟩] <+:
      (lex IsLetter name (stringReader "<br>") (k + 5)).tokens) ∧
    (∀ fuel, ∀ i ∈ (lex IsLetter name (stringReader "<br>") fuel).tokens,
      i.typ ≠ itemType.itemAtributeName) := by
  have hw : ∀ x ∈ ['b', 'r'], IsLetter x = true := by
    intro x hx
    simp at hx
    rcases hx with rfl | rfl <;> assumption
  constructor
  · intro k
    exact lex_tag_stuck_prefix IsLetter name ioError.EOF [] ['b', 'r'] '>' [] (by simp)
      hw hgt (k + 5) (by simp) (by simp)
  · intro fuel i hi
    have := lex_tag_diverges_kinds IsLetter name ioError.EOF [] ['b', 'r'] '>' []
      (by simp) hw hgt fuel i hi
    rcases this with h | h | h | h <;> rw [h] <;> simp

/-- Witness of the amended C4 with the ASCII letters. -/
theorem C4_br_amended_witness :
    (∀ k, [⟨itemType.itemText, ""⟩, ⟨itemType.itemStartTag, "<"⟩,
        ⟨itemType.itemTagName, "br"⟩] <+:
      (lex asciiLetter "t" (stringReader "<br>") (k + 5)).tokens) ∧
    (∀ fuel, ∀ i ∈ (lex asciiLetter "t" (stringReader "<br>") fuel).tokens,
      i.typ ≠ itemType.itemAtributeName) :=
  C4_br_amended asciiLetter (by decide) (by decide) (by decide) "t"

/-- C5 (counterexample): on the input `<a href>`, whatever the step budget, the
tokens sent are never StartTag("<"), TagName("a"), AttributeName("href"),
EndTag(">"); indeed no AttributeName and no EndTag token is ever sent, and after
four steps the first token is Text("").  Moreover the Attributes state, entered
with `href>` left to read, reads the `>` inside its letter loop: after six steps
the stream is exhausted and no token has been sent. -/
theorem C5_a_href_counterexample :
    (¬ ∃ fuel, (lex asciiLetter "" (stringReader "<a href>") fuel).tokens =
      [⟨itemType.itemStartTag, "<"⟩, ⟨itemType.itemTagName, "a"⟩,
        ⟨itemType.itemAtributeName, "href"⟩, ⟨itemType.itemEndTag, ">"⟩]) ∧
    (¬ ∃ fuel, ∃ i ∈ (lex asciiLetter "" (stringReader "<a href>") fuel).tokens,
      i.typ = itemType.itemAtributeName ∨ i.typ = itemType.itemEndTag) ∧
    (lex asciiLetter "" (stringReader "<a href>") 4).tokens.head? =
      some ⟨itemType.itemText, ""⟩ ∧
    (lexAttributes asciiLetter 6
        ⟨⟨['h', 'r', 'e', 'f', '>'], ioError.EOF, none⟩, "", "", ⟨[], false⟩⟩).lexer.stream.buf
      = [] ∧
    (lexAttributes asciiLetter 6
        ⟨⟨['h', 'r', 'e', 'f', '>'], ioError.EOF, none⟩, "", "", ⟨[], false⟩⟩).tokens = [] := by
  have key : ∀ fuel, ∀ i ∈ (lex asciiLetter "" (stringReader "<a href>") fuel).tokens,
      i.typ = itemType.itemText ∨ i.typ = itemType.itemStartTag ∨
        i.typ = itemType.itemCloseTag ∨ i.typ = itemType.itemTagName :=
    fun fuel => lex_tag_diverges_kinds asciiLetter "" ioError.EOF [] ['a'] ' '
      ['h', 'r', 'e', 'f', '>'] (by simp) (by decide) (by decide) fuel
  refine ⟨?_, ?_, by decide, by decide, by decide⟩
  · rintro ⟨fuel, h⟩
    have := key fuel ⟨itemType.itemEndTag, ">"⟩ (by rw [h]; simp)
    simp at this
  · rintro ⟨fuel, i, hi, h⟩
    have := key fuel i hi
    rcases h with h | h <;> rw [h] at this <;> simp at this

/-- C5 (amended): on the input `<a href>`, once four steps have been made, the
tokens sent begin with Text(""), StartTag("<"), TagName("a"). -/
theorem C5_a_href_amended (IsLetter : Char → Bool) (ha : IsLetter 'a' = true)
    (hsp : IsLetter ' ' = false) (name : String) (k : Nat) :
    [⟨itemType.itemText, ""⟩, ⟨itemType.itemStartTag, "<"⟩, ⟨itemType.itemTagName, "a"⟩] <+:
      (lex IsLetter name (stringReader "<a href>") (k + 4)).tokens :=
  lex_tag_stuck_prefix IsLetter name ioError.EOF [] ['a'] ' ' ['h', 'r', 'e', 'f', '>']
    (by simp) (by simpa using ha) hsp (k + 4) (by simp) (by simp)

/-- Witness of the amended C5 with the ASCII letters, after four steps. -/
theorem C5_a_href_amended_witness :
    [⟨itemType.itemText, ""⟩, ⟨itemType.itemStartTag, "<"⟩, ⟨itemType.itemTagName, "a"⟩] <+:
      (lex asciiLetter "t" (stringReader "<a href>") 4).tokens :=
  C5_a_href_amended asciiLetter (by decide) (by decide) "t" 0

/-- C6 (counterexample): on the input `<img/>` the token after StartTag("<") is
TagName("img"), not a CloseTag from the peeked lookahead (the rune peeked is `i`);
and whatever the step budget, no CloseTag and no EndTag token is ever sent. -/
theorem C6_img_counterexample :
    (lex asciiLetter "" (stringReader "<img/>") 6).tokens =
      [⟨itemType.itemText, ""⟩, ⟨itemType.itemStartTag, "<"⟩,
        ⟨itemType.itemTagName, "img"⟩] ∧
    (¬ ∃ fuel, ∃ i ∈ (lex asciiLetter "" (stringReader "<img/>") fuel).tokens,
      i.typ = itemType.itemCloseTag ∨ i.typ = itemType.itemEndTag) := by
  refine ⟨by decide, ?_⟩
  rintro ⟨fuel, i, hi, h⟩
  obtain ⟨l, e, hs⟩ := lex_tag_diverges asciiLetter "" ioError.EOF [] ['i', 'm', 'g'] '/'
    ['>'] (by simp) (by decide) (by decide) fuel
  have e' : lex asciiLetter "" (stringReader "<img/>") fuel = _ := e
  rw [e'] at hi
  simp only [Outcome.tokens, Outcome.lexer] at hi
  rcases hs with hs | hs | ⟨k, hs⟩
  · rw [hs] at hi; simp at hi
  · rw [hs] at hi
    simp [tagHead] at hi
    rcases hi with rfl | rfl <;> simp at h
  · rw [hs] at hi
    simp [tagHead] at hi
    rcases hi with rfl | rfl | rfl | ⟨_, rfl⟩ <;> simp at h

/-- C6 (amended): on the input `<img/>`, once six steps have been made, the
tokens sent begin with Text(""), StartTag("<"), TagName("img"): the peek in the
Tag state sees `i` and sends no CloseTag. -/
theorem C6_img_amended (IsLetter : Char → Bool) (hi : IsLetter 'i' = true)
    (hm : IsLetter 'm' = true) (hg : IsLetter 'g' = true) (hsl : IsLetter '/' = false)
    (name : String) (k : Nat) :
    [⟨itemType.itemText, ""⟩, ⟨itemType.itemStartTag, "<"⟩,
        ⟨itemType.itemTagName, "img"⟩] <+:
      (lex IsLetter name (stringReader "<img/>") (k + 6)).tokens := by
  have hw : ∀ x ∈ ['i', 'm', 'g'], IsLetter x = true := by
    intro x hx
    simp at hx
    rcases hx with rfl | rfl | rfl <;> assumption
  exact lex_tag_stuck_prefix IsLetter name ioError.EOF [] ['i', 'm', 'g'] '/' ['>']
    (by simp) hw hsl (k + 6) (by simp) (by simp)

/-- Witness of the amended C6 with the ASCII letters, after six steps. -/
theorem C6_img_amended_witness :
    [⟨itemType.itemText, ""⟩, ⟨itemType.itemStartTag, "<"⟩,
        ⟨itemType.itemTagName, "img"⟩] <+:
      (lex asciiLetter "t" (stringReader "<img/>") 6).tokens :=
  C6_img_amended asciiLetter (by decide) (by decide) (by decide) (by decide) "t" 0

/-- C7: on the input `<di` (stream ending with `io.EOF`) the Tag state, entered
with `di` left to read, sends an EndOfInput token and returns `lexAttributes`, not
`nil`; the run then sends a second EndOfInput token from the Attributes state, so
two tokens follow StartTag("<"): EndOfInput("di") and EndOfInput(""). -/
theorem C7_truncated_tag :
    (∃ l, lexTag asciiLetter 3
        ⟨⟨['d', 'i'], ioError.EOF, some '<'⟩, "", "<", ⟨[⟨itemType.itemText, ""⟩], false⟩⟩ =
          Outcome.returned (some stateFn.lexAttributes) l ∧
        l.items.sent = [⟨itemType.itemText, ""⟩, ⟨itemType.itemStartTag, "<"⟩,
          ⟨itemType.itemEOF, "di"⟩]) ∧
    (∀ h, (lex asciiLetter "" (stringReader "<di") (h + 5)).tokens =
      [⟨itemType.itemText, ""⟩, ⟨itemType.itemStartTag, "<"⟩,
        ⟨itemType.itemEOF, "di"⟩, ⟨itemType.itemEOF, ""⟩]) := by
  constructor
  · exact ⟨_, rfl, by decide⟩
  · intro h
    have e := lex_tag_eof asciiLetter "" [] ['d', 'i'] (by simp) (by decide) (h + 1)
      (by simp) (by simp)
    have e' : lex asciiLetter "" (stringReader "<di") (h + 5) = _ := e
    rw [e']
    decide

/-- C8: on the input `<di` (stream ending with `io.EOF`) the first EndOfInput
token sent has the value `di`, the letters accumulated in the Tag state, not the
empty string. -/
theorem C8_end_marker_value :
    ∀ h, (lex asciiLetter "" (stringReader "<di") (h + 5)).tokens.get? 2 =
      some ⟨itemType.itemEOF, "di"⟩ := by
  intro h
  have e := lex_tag_eof asciiLetter "" [] ['d', 'i'] (by simp) (by decide) (h + 1)
    (by simp) (by simp)
  have e' : lex asciiLetter "" (stringReader "<di") (h + 5) = _ := e
  rw [e']
  decide

/-- C9: `emit(t)` sends exactly one item, of kind `t` and with the pending
accumulator as its value, after the items already sent; it leaves the accumulator
empty and the stream and name untouched.  Consequently, in every run (whatever
the input and the step budget) no character of one token's value appears in the
value of the next token; here `<` is assumed not to be a letter, as it is for
`unicode.IsLetter`. -/
theorem C9_emit_clears (IsLetter : Char → Bool) (hlt : IsLetter '<' = false) (l : lexer)
    (t : itemType) (name : String) (input : ioReader) (fuel : Nat) :
    (l.emit t).items.sent = l.items.sent ++ [⟨t, l.input⟩] ∧
      (l.emit t).input = "" ∧
      (l.emit t).stream = l.stream ∧ (l.emit t).name = l.name ∧
      (l.emit t).items.closed = l.items.closed ∧
      List.Chain' disjointValues (lex IsLetter name input fuel).tokens :=
  ⟨rfl, rfl, rfl, rfl, rfl, lex_chain IsLetter hlt name input fuel⟩

/-- Witness of C9: `emit(itemTagName)` on a lexer with pending value `br`, and the
run on `a<di` with the ASCII letters. -/
theorem C9_emit_clears_witness :
    ((⟨⟨['>'], ioError.EOF, none⟩, "t", "br", ⟨[⟨itemType.itemStartTag, "<"⟩], false⟩⟩ :
        lexer).emit itemType.itemTagName).items.sent =
        [⟨itemType.itemStartTag, "<"⟩] ++ [⟨itemType.itemTagName, "br"⟩] ∧
      ((⟨⟨['>'], ioError.EOF, none⟩, "t", "br", ⟨[⟨itemType.itemStartTag, "<"⟩], false⟩⟩ :
        lexer).emit itemType.itemTagName).input = "" ∧
      ((⟨⟨['>'], ioError.EOF, none⟩, "t", "br", ⟨[⟨itemType.itemStartTag, "<"⟩], false⟩⟩ :
        lexer).emit itemType.itemTagName).stream = ⟨['>'], ioError.EOF, none⟩ ∧
      ((⟨⟨['>'], ioError.EOF, none⟩, "t", "br", ⟨[⟨itemType.itemStartTag, "<"⟩], false⟩⟩ :
        lexer).emit itemType.itemTagName).name = "t" ∧
      ((⟨⟨['>'], ioError.EOF, none⟩, "t", "br", ⟨[⟨itemType.itemStartTag, "<"⟩], false⟩⟩ :
        lexer).emit itemType.itemTagName).items.closed = false ∧
      List.Chain' disjointValues (lex asciiLetter "t" (stringReader "a<di") 7).tokens :=
  C9_emit_clears asciiLetter (by decide)
    ⟨⟨['>'], ioError.EOF, none⟩, "t", "br", ⟨[⟨itemType.itemStartTag, "<"⟩], false⟩⟩
    itemType.itemTagName "t" (stringReader "a<di") 7

/-- C10: for every input stream and every step budget, each token sent by the
lexer has one of the kinds Text, EndOfInput, StartTag, CloseTag, TagName,
AttributeName, EndTag, Equals, Error, and none has one of the kinds Dot, Else,
End, Field, Identifier, If, LeftMeta, Number, Pipe, Range, RawString, RightMeta,
String, AttributeValue. -/
theorem C10_token_kinds (IsLetter : Char → Bool) (name : String) (input : ioReader)
    (fuel : Nat) :
    ∀ i ∈ (lex IsLetter name input fuel).tokens,
      i.typ ∈ [itemType.itemText, itemType.itemEOF, itemType.itemStartTag,
        itemType.itemCloseTag, itemType.itemTagName, itemType.itemAtributeName,
        itemType.itemEndTag, itemType.itemEq, itemType.itemError] ∧
      i.typ ∉ [itemType.itemDot, itemType.itemElse, itemType.itemEnd, itemType.itemField,
        itemType.itemIdentifier, itemType.itemIf, itemType.itemLeftMeta,
        itemType.itemNumber, itemType.itemPipe, itemType.itemRange,
        itemType.itemRawString, itemType.itemRightMeta, itemType.itemString,
        itemType.itemAtributeValue] := by
  intro i hi
  have h0 : kindsOK (newLexer name input) := by
    intro j hj
    simp [newLexer] at hj
  have h := run_loop_kinds IsLetter fuel (some stateFn.lexText) (newLexer name input) h0 i hi
  refine ⟨h, ?_⟩
  revert h
  unfold producedKinds
  cases i.typ <;> decide

/-- Witness of C10: the EndOfInput token sent on the input `<di`. -/
theorem C10_token_kinds_witness :
    (⟨itemType.itemEOF, "di"⟩ : item).typ ∈ [itemType.itemText, itemType.itemEOF,
        itemType.itemStartTag, itemType.itemCloseTag, itemType.itemTagName,
        itemType.itemAtributeName, itemType.itemEndTag, itemType.itemEq,
        itemType.itemError] ∧
      (⟨itemType.itemEOF, "di"⟩ : item).typ ∉ [itemType.itemDot, itemType.itemElse,
        itemType.itemEnd, itemType.itemField, itemType.itemIdentifier, itemType.itemIf,
        itemType.itemLeftMeta, itemType.itemNumber, itemType.itemPipe, itemType.itemRange,
        itemType.itemRawString, itemType.itemRightMeta, itemType.itemString,
        itemType.itemAtributeValue] :=
  C10_token_kinds asciiLetter "t" (stringReader "<di") 6 ⟨itemType.itemEOF, "di"⟩ (by decide)

/-! ## Claims on rendering -/

theorem length_le_utf8ByteSize_go (cs : List Char) :
    cs.length ≤ String.utf8ByteSize.go cs := by
  induction cs with
  | nil => simp [String.utf8ByteSize.go]
  | cons c cs ih =>
    have := Char.utf8Size_pos c
    simp only [String.utf8ByteSize.go, List.length_cons]
    omega

theorem length_le_utf8ByteSize (s : String) : s.length ≤ s.utf8ByteSize :=
  length_le_utf8ByteSize_go s.data

theorem truncateString_of_le (s : String) (n : Nat) (h : s.length ≤ n) :
    truncateString s n = s := by
  apply String.ext
  simp only [truncateString]
  exact List.take_of_length_le h

/-- C11: whatever its value, a token of kind EndOfInput renders as `EOF`, and a
token of kind Error renders as exactly its value, neither quoted nor truncated. -/
theorem C11_render_markers (Quote : String → String) (v : String) :
    (⟨itemType.itemEOF, v⟩ : item).String Quote = "EOF" ∧
      (⟨itemType.itemError, v⟩ : item).String Quote = v :=
  ⟨rfl, rfl⟩

theorem String_of_other (Quote : String → String) (i : item)
    (h1 : i.typ ≠ itemType.itemEOF) (h2 : i.typ ≠ itemType.itemError) :
    i.String Quote =
      if i.val.utf8ByteSize > 10 then Quote (truncateString i.val 10) ++ "..."
      else Quote i.val := by
  obtain ⟨typ, val⟩ := i
  cases typ <;> first | rfl | exact absurd rfl h1 | exact absurd rfl h2

/-- C12 (counterexample): the value `éééééé` has 6 characters and 12 bytes; a Text
token with this value renders as the quoted value followed by `...`, not as the
quoted value alone. -/
theorem C12_multibyte_counterexample :
    "éééééé".length = 6 ∧ "éééééé".utf8ByteSize = 12 ∧
      (⟨itemType.itemText, "éééééé"⟩ : item).String plainQuote =
        plainQuote "éééééé" ++ "..." ∧
      (⟨itemType.itemText, "éééééé"⟩ : item).String plainQuote ≠ plainQuote "éééééé" := by
  decide

/-- C12 (amended): for a token of any kind other than EndOfInput and Error, if the
value is longer than 10 bytes, and so in particular if it has more than 10
characters, the rendering is the quoted form of its first 10 characters followed
by `...`; if the value is at most 10 bytes long the rendering is the quoted form
of the whole value with no ellipsis; a value of at most 10 characters that is
longer than 10 bytes renders as the quoted whole value followed by `...`. -/
theorem C12_render_quoted (Quote : String → String) (i : item)
    (h1 : i.typ ≠ itemType.itemEOF) (h2 : i.typ ≠ itemType.itemError) :
    (10 < i.val.utf8ByteSize →
        i.String Quote = Quote (truncateString i.val 10) ++ "...") ∧
      (10 < i.val.length → i.String Quote = Quote (truncateString i.val 10) ++ "...") ∧
      (i.val.utf8ByteSize ≤ 10 → i.String Quote = Quote i.val) ∧
      (i.val.length ≤ 10 → 10 < i.val.utf8ByteSize →
        i.String Quote = Quote i.val ++ "...") := by
  rw [String_of_other Quote i h1 h2]
  refine ⟨?_, ?_, ?_, ?_⟩
  · intro h
    rw [if_pos h]
  · intro h
    have := length_le_utf8ByteSize i.val
    rw [if_pos (by omega)]
  · intro h
    rw [if_neg (by omega)]
  · intro hl hb
    rw [if_pos hb, truncateString_of_le i.val 10 hl]

/-- Witness of the amended C12: a TagName token with the 11-letter value
`blockquotes` and the plain quoting. -/
theorem C12_render_quoted_witness :
    (10 < "blockquotes".utf8ByteSize →
        (⟨itemType.itemTagName, "blockquotes"⟩ : item).String plainQuote =
          plainQuote (truncateString "blockquotes" 10) ++ "...") ∧
      (10 < "blockquotes".length →
        (⟨itemType.itemTagName, "blockquotes"⟩ : item).String plainQuote =
          plainQuote (truncateString "blockquotes" 10) ++ "...") ∧
      ("blockquotes".utf8ByteSize ≤ 10 →
        (⟨itemType.itemTagName, "blockquotes"⟩ : item).String plainQuote =
          plainQuote "blockquotes") ∧
      ("blockquotes".length ≤ 10 → 10 < "blockquotes".utf8ByteSize →
        (⟨itemType.itemTagName, "blockquotes"⟩ : item).String plainQuote =
          plainQuote "blockquotes" ++ "...") :=
  C12_render_quoted plainQuote ⟨itemType.itemTagName, "blockquotes"⟩ (by decide) (by decide)

/-! ## Claims on the state functions -/

/-- C13: at the end of the stream, when the read of the Attributes state fails
with an error other than end-of-stream, the step sends no token and returns no
successor state; when the read reports end-of-stream, the step sends exactly one
EndOfInput token and returns no successor state. -/
theorem C13_attributes_read_failure (IsLetter : Char → Bool) (fuel : Nat)
    (last : Option Char) (name input : String) (items : chan) :
    lexAttributes IsLetter fuel ⟨⟨[], ioError.other, last⟩, name, input, items⟩ =
        Outcome.returned none ⟨⟨[], ioError.other, none⟩, name, input, items⟩ ∧
      lexAttributes IsLetter fuel ⟨⟨[], ioError.EOF, last⟩, name, input, items⟩ =
        Outcome.returned none ⟨⟨[], ioError.EOF, none⟩, name, "",
          ⟨items.sent ++ [⟨itemType.itemEOF, input⟩], items.closed⟩⟩ :=
  ⟨lexAttributes_err IsLetter fuel _ rfl rfl, lexAttributes_eof IsLetter fuel _ rfl rfl⟩

/-- C14: for every input made of `t` without `<` (possibly empty), then `<`, then
anything, `lexText` returns `lexTag` having sent Text(`t`) and seeded the pending
value with `<`; and once the run has made `t.length + 2` steps, its first token
is Text(`t`) and its second token is StartTag("<"). -/
theorem C14_text_then_start_tag (IsLetter : Char → Bool) (name : String) (e : ioError)
    (t rest : List Char) (ht : '<' ∉ t) (fuel : Nat) (hf : t.length + 2 ≤ fuel) :
    (∃ L, lexText (t.length + 1) (newLexer name ⟨t ++ '<' :: rest, e⟩) =
        Outcome.returned (some stateFn.lexTag) L ∧ L.input = "<" ∧
        L.items.sent = [⟨itemType.itemText, String.mk t⟩]) ∧
      (lex IsLetter name ⟨t ++ '<' :: rest, e⟩ fuel).tokens.take 2 =
        [⟨itemType.itemText, String.mk t⟩, ⟨itemType.itemStartTag, "<"⟩] := by
  constructor
  · obtain ⟨L, h, _, _, hi, hs⟩ := lexText_lt_fields t rest name e (t.length + 1) ht (by omega)
    exact ⟨L, h, hi, hs⟩
  · obtain ⟨g, rfl⟩ : ∃ g, fuel = g + 2 := ⟨fuel - 2, by omega⟩
    obtain ⟨L, h1, hLb, _, hLi, hLs⟩ := lexText_lt_fields t rest name e (g + 1) ht (by omega)
    have hp : [⟨itemType.itemText, String.mk t⟩, ⟨itemType.itemStartTag, "<"⟩] <+:
        (lex IsLetter name ⟨t ++ '<' :: rest, e⟩ (g + 2)).tokens := by
      unfold lex run
      rw [run_lexText_returned IsLetter (g + 1) _ _ _ h1]
      apply run_loop_step_sent
      show _ <+: (lexTag IsLetter g L).tokens
      rw [lexTag_eq]
      apply lexTag_loop_sent
      rw [afterPeek_sent L t rest hLb hLi hLs]
      exact ⟨_, rfl⟩
    rw [List.prefix_iff_eq_take] at hp
    exact hp.symm

/-- Witness of C14 at the input `ab<c>` after four steps. -/
theorem C14_text_then_start_tag_witness :
    (∃ L, lexText (['a', 'b'].length + 1) (newLexer "t" ⟨['a', 'b'] ++ '<' :: ['c', '>'],
          ioError.EOF⟩) =
        Outcome.returned (some stateFn.lexTag) L ∧ L.input = "<" ∧
        L.items.sent = [⟨itemType.itemText, String.mk ['a', 'b']⟩]) ∧
      (lex asciiLetter "t" ⟨['a', 'b'] ++ '<' :: ['c', '>'], ioError.EOF⟩ 4).tokens.take 2 =
        [⟨itemType.itemText, String.mk ['a', 'b']⟩, ⟨itemType.itemStartTag, "<"⟩] :=
  C14_text_then_start_tag asciiLetter "t" ioError.EOF ['a', 'b'] ['c', '>'] (by decide) 4
    (by decide)

/-- C15: entered with pending value `<` and `br>` left to read, the Tag state
never returns and so never transitions to the Attributes state: whatever the step
budget it is still in its loop; after `k + 3` steps it has sent StartTag("<"),
TagName("br") and then `k` more TagName tokens with an empty value, while `>` is
still the next rune to read. -/
theorem C15_tag_state_diverges :
    (∀ fuel, ∃ l, lexTag asciiLetter fuel
        ⟨⟨['b', 'r', '>'], ioError.EOF, some '<'⟩, "", "<", ⟨[], false⟩⟩ =
          Outcome.running l) ∧
      (∀ k, lexTag asciiLetter (k + 3)
          ⟨⟨['b', 'r', '>'], ioError.EOF, some '<'⟩, "", "<", ⟨[], false⟩⟩ =
        Outcome.running ⟨⟨['>'], ioError.EOF, none⟩, "", "",
          ⟨⟨itemType.itemStartTag, "<"⟩ :: ⟨itemType.itemTagName, "br"⟩ ::
            List.replicate k ⟨itemType.itemTagName, ""⟩, false⟩⟩) := by
  constructor
  · intro fuel
    rw [lexTag_eq]
    exact lexTag_loop_diverges asciiLetter '>' [] (by decide) ['b', 'r'] _ rfl (by decide) fuel
  · intro k
    rw [lexTag_eq, show k + 3 = ['b', 'r'].length + (k + 1) by simp; omega,
      lexTag_loop_name_stuck asciiLetter '>' [] (by decide) ['b', 'r'] k _ rfl (by decide)]
    simp [afterPeek]

/-- C16: in the Tag state, right after the start-tag item and the peek (that is,
with no step of the loop made), if the next rune of the stream is `/` then a
CloseTag token has been sent immediately after the StartTag token, and otherwise
(another rune, or the end of the stream) only the StartTag token has been sent; in
both cases the stream still holds the same runes, so a `/` that was peeked is the
next rune read; and these tokens stay the first ones sent whatever the number of
steps of the loop. -/
theorem C16_peek_close_tag (IsLetter : Char → Bool) (l : lexer) :
    (l.stream.buf.head? = some '/' →
        (lexTag IsLetter 0 l).tokens = l.items.sent ++
          [⟨itemType.itemStartTag, l.input⟩, ⟨itemType.itemCloseTag, ""⟩] ∧
        (lexTag IsLetter 0 l).lexer.stream.ReadRune.1 = '/') ∧
      (l.stream.buf.head? ≠ some '/' →
        (lexTag IsLetter 0 l).tokens = l.items.sent ++ [⟨itemType.itemStartTag, l.input⟩]) ∧
      (lexTag IsLetter 0 l).lexer.stream.buf = l.stream.buf ∧
      (∀ fuel, (lexTag IsLetter 0 l).tokens <+: (lexTag IsLetter fuel l).tokens) := by
  have h0 : lexTag IsLetter 0 l = Outcome.running (afterPeek l) := by
    rw [lexTag_eq]
    rfl
  refine ⟨?_, ?_, ?_, ?_⟩
  · intro h
    rw [h0]
    constructor
    · simp [Outcome.tokens, Outcome.lexer, afterPeek, h]
    · cases hb : l.stream.buf with
      | nil => rw [hb] at h; simp at h
      | cons c cs =>
        rw [hb] at h
        have hc : c = '/' := by simpa using h
        subst hc
        simp [Outcome.lexer, afterPeek, Reader.ReadRune, hb]
  · intro h
    rw [h0]
    simp [Outcome.tokens, Outcome.lexer, afterPeek, h]
  · rw [h0]
    rfl
  · intro fuel
    rw [h0, lexTag_eq]
    exact lexTag_loop_sent IsLetter _ fuel _ (List.prefix_refl _)

/-- C17: one step of the Attributes state whose read returns `c` consumes exactly
that rune and dispatches on it: `>` sends exactly one EndTag token and the
successor is Text; `/` sends exactly one CloseTag token and the successor is
Attributes; `=` sends exactly one Equals token and the successor is Attributes;
any other rune that is not a letter sends no token, leaves the pending
accumulator unchanged, and the successor is Attributes.  A token sent takes the
pending accumulator as its value. -/
theorem C17_attributes_dispatch (IsLetter : Char → Bool) (fuel : Nat) (rest : List Char)
    (e : ioError) (last : Option Char) (name input : String) (items : chan) :
    lexAttributes IsLetter fuel ⟨⟨'>' :: rest, e, last⟩, name, input, items⟩ =
        Outcome.returned (some stateFn.lexText) ⟨⟨rest, e, some '>'⟩, name, "",
          ⟨items.sent ++ [⟨itemType.itemEndTag, input⟩], items.closed⟩⟩ ∧
      lexAttributes IsLetter fuel ⟨⟨'/' :: rest, e, last⟩, name, input, items⟩ =
        Outcome.returned (some stateFn.lexAttributes) ⟨⟨rest, e, some '/'⟩, name, "",
          ⟨items.sent ++ [⟨itemType.itemCloseTag, input⟩], items.closed⟩⟩ ∧
      lexAttributes IsLetter fuel ⟨⟨'=' :: rest, e, last⟩, name, input, items⟩ =
        Outcome.returned (some stateFn.lexAttributes) ⟨⟨rest, e, some '='⟩, name, "",
          ⟨items.sent ++ [⟨itemType.itemEq, input⟩], items.closed⟩⟩ ∧
      (∀ c, c ≠ '>' → c ≠ '/' → c ≠ '=' → IsLetter c = false →
        lexAttributes IsLetter fuel ⟨⟨c :: rest, e, last⟩, name, input, items⟩ =
          Outcome.returned (some stateFn.lexAttributes)
            ⟨⟨rest, e, some c⟩, name, input, items⟩) := by
  refine ⟨?_, ?_, ?_, ?_⟩
  · simp [lexAttributes, Reader.ReadRune, lexer.emit]
  · simp [lexAttributes, Reader.ReadRune, lexer.emit]
  · simp [lexAttributes, Reader.ReadRune, lexer.emit]
  · intro c h1 h2 h3 h4
    simp [lexAttributes, Reader.ReadRune, h1, h2, h3, h4]

/-- C18: entered with `href>` left to read, one step of the Attributes state never
returns: whatever the step budget it is still in its letter loop and has sent no
token, so no AttributeName token is sent; after six steps it has read the whole
stream, the `>` included, and its pending value is six times the first letter. -/
theorem C18_attribute_name_diverges :
    (∀ fuel, ∃ l, lexAttributes asciiLetter fuel
        ⟨⟨['h', 'r', 'e', 'f', '>'], ioError.EOF, none⟩, "", "", ⟨[], false⟩⟩ =
          Outcome.running l ∧ l.items.sent = []) ∧
      lexAttributes asciiLetter 6
          ⟨⟨['h', 'r', 'e', 'f', '>'], ioError.EOF, none⟩, "", "", ⟨[], false⟩⟩ =
        Outcome.running ⟨⟨[], ioError.EOF, none⟩, "", "hhhhhh", ⟨[], false⟩⟩ := by
  constructor
  · intro fuel
    have h : lexAttributes asciiLetter fuel
        ⟨⟨['h', 'r', 'e', 'f', '>'], ioError.EOF, none⟩, "", "", ⟨[], false⟩⟩ =
        lexAttributes.loop asciiLetter 'h' fuel
          ⟨⟨['r', 'e', 'f', '>'], ioError.EOF, some 'h'⟩, "", "", ⟨[], false⟩⟩ := by
      have hl : asciiLetter 'h' = true := by decide
      simp [lexAttributes, Reader.ReadRune, hl]
    rw [h]
    obtain ⟨l', h1, h2⟩ := lexAttributes_loop_diverges asciiLetter 'h' (by decide) fuel
      ⟨⟨['r', 'e', 'f', '>'], ioError.EOF, some 'h'⟩, "", "", ⟨[], false⟩⟩
    exact ⟨l', h1, by rw [h2]⟩
  · rfl

/-- C19: on the input `</a>` the CloseTag token sent after the peek in the Tag
state has the empty string as its value, not `/`: once three steps have been made
the tokens sent begin with Text(""), StartTag("<"), CloseTag("").  Likewise one
step of the Attributes state with an empty pending value sends CloseTag("") on
`/` and EndTag("") on `>`. -/
theorem C19_delimiter_values :
    (∀ k, [⟨itemType.itemText, ""⟩, ⟨itemType.itemStartTag, "<"⟩,
        ⟨itemType.itemCloseTag, ""⟩] <+:
      (lex asciiLetter "" (stringReader "</a>") (k + 3)).tokens) ∧
    (lexAttributes asciiLetter 1
      ⟨⟨['/', '>'], ioError.EOF, none⟩, "", "", ⟨[], false⟩⟩).tokens =
        [⟨itemType.itemCloseTag, ""⟩] ∧
    (lexAttributes asciiLetter 1
      ⟨⟨['>'], ioError.EOF, none⟩, "", "", ⟨[], false⟩⟩).tokens =
        [⟨itemType.itemEndTag, ""⟩] := by
  refine ⟨?_, by decide, by decide⟩
  intro k
  have h := lex_tag_stuck_prefix asciiLetter "" ioError.EOF [] [] '/' ['a', '>'] (by simp)
    (by simp) (by decide) (k + 3) (by simp) (by simp)
  have h' : tagHead [] ([] ++ '/' :: ['a', '>']) ++ [⟨itemType.itemTagName, String.mk []⟩] <+:
      (lex asciiLetter "" (stringReader "</a>") (k + 3)).tokens := h
  exact (List.prefix_append _ _).trans h'

/-- C20: for every input stream and every step budget, among the tokens sent the
value of every Text token contains no `<`, and the value of every TagName token
and of every AttributeName token consists only of letters. -/
theorem C20_token_values (IsLetter : Char → Bool) (name : String) (input : ioReader)
    (fuel : Nat) :
    ∀ i ∈ (lex IsLetter name input fuel).tokens,
      (i.typ = itemType.itemText → '<' ∉ i.val.data) ∧
      (i.typ = itemType.itemTagName ∨ i.typ = itemType.itemAtributeName →
        ∀ c ∈ i.val.data, IsLetter c = true) := by
  intro i hi
  have hhead : ∀ t r : List Char, '<' ∉ t → ∀ j ∈ tagHead t r,
      (j.typ = itemType.itemText → '<' ∉ j.val.data) ∧
      (j.typ = itemType.itemTagName ∨ j.typ = itemType.itemAtributeName →
        ∀ c ∈ j.val.data, IsLetter c = true) := by
    intro t r ht j hj
    simp only [tagHead, List.mem_cons] at hj
    rcases hj with rfl | rfl | hj
    · exact ⟨fun _ => ht, fun h => by simp at h⟩
    · exact ⟨fun h => by simp at h, fun h => by simp at h⟩
    · split at hj
      · simp at hj
        subst hj
        exact ⟨fun h => by simp at h, fun h => by simp at h⟩
      · simp at hj
  rcases lex_shape IsLetter name input fuel with h | ⟨d, hd, h⟩ | ⟨t, r, w, ht, hw, h⟩
  · rw [h] at hi
    simp at hi
  · rw [h] at hi
    simp only [List.mem_cons, List.mem_singleton, List.not_mem_nil, or_false] at hi
    rcases hi with rfl | rfl
    · exact ⟨fun _ => hd, fun h => by simp at h⟩
    · exact ⟨fun h => by simp at h, fun h => by simp at h⟩
  · rcases h with h | ⟨k, h⟩ | h | h
    · rw [h] at hi
      exact hhead t r ht i hi
    · rw [h] at hi
      simp only [List.mem_append, List.mem_cons, List.mem_replicate] at hi
      rcases hi with hi | rfl | ⟨_, rfl⟩
      · exact hhead t r ht i hi
      · exact ⟨fun h => by simp at h, fun _ => hw⟩
      · exact ⟨fun h => by simp at h, fun _ c hc => by simp at hc⟩
    · rw [h] at hi
      simp only [List.mem_append, List.mem_singleton] at hi
      rcases hi with hi | rfl
      · exact hhead t r ht i hi
      · exact ⟨fun h => by simp at h, fun h => by simp at h⟩
    · rw [h] at hi
      simp only [List.mem_append, List.mem_cons, List.mem_singleton, List.not_mem_nil,
        or_false] at hi
      rcases hi with hi | rfl | rfl
      · exact hhead t r ht i hi
      · exact ⟨fun h => by simp at h, fun h => by simp at h⟩
      · exact ⟨fun h => by simp at h, fun h => by simp at h⟩

/-- Witness of C20: the TagName token sent on the input `<br>`. -/
theorem C20_token_values_witness :
    ((⟨itemType.itemTagName, "br"⟩ : item).typ = itemType.itemText →
        '<' ∉ (⟨itemType.itemTagName, "br"⟩ : item).val.data) ∧
      ((⟨itemType.itemTagName, "br"⟩ : item).typ = itemType.itemTagName ∨
          (⟨itemType.itemTagName, "br"⟩ : item).typ = itemType.itemAtributeName →
        ∀ c ∈ (⟨itemType.itemTagName, "br"⟩ : item).val.data, asciiLetter c = true) :=
  C20_token_values asciiLetter "t" (stringReader "<br>") 5 ⟨itemType.itemTagName, "br"⟩
    (by decide)

end parseform
